import Mathlib

/-!
Verification of the dimension allocator in
`pyro/contrib/funsor/named_messenger.py`.

The Python module keeps a process-wide `DimStack` of `StackFrame`s, each
holding a pair of ordered dictionaries (`name_to_dim`, `dim_to_name`),
and allocates negative integer "dims" for symbolic names via
`DimStack.request` / `DimStack._gendim`.  Frames are mutable objects
shared by reference (a frame's `parents` and `iter_parents` point at
frames that also sit on the stack), so the embedding uses an explicit
store: frames are identified by numeric ids, the store maps ids to
frame contents, and the stack is a list of ids (bottom = global frame,
as in the Python list where `_stack[0]` is global and `_stack[-1]` is
current).

Python `OrderedDict`s are modelled as association lists that preserve
insertion order: update-in-place for an existing key, append for a new
key, exactly as `OrderedDict.__setitem__` behaves.  Fallible paths are
modelled with `Except`: `TypeError` (e.g. negating `None` during name
synthesis), `ValueError` (the "Ran out of free dims" error, carrying
the name being allocated), and `AssertionError` (failed `assert`).
-/

/-! ## Ordered association lists (OrderedDict semantics) -/

/-- Lookup of the first entry with the given key (`dict.get`). -/
def odGet {α β : Type} [DecidableEq α] (m : List (α × β)) (k : α) : Option β :=
  match m with
  | [] => none
  | p :: t => if p.1 = k then some p.2 else odGet t k

/-- `OrderedDict.__setitem__`: update in place if the key is present,
append at the end otherwise. -/
def odSet {α β : Type} [DecidableEq α] (m : List (α × β)) (k : α) (v : β) :
    List (α × β) :=
  match m with
  | [] => [(k, v)]
  | p :: t => if p.1 = k then (k, v) :: t else p :: odSet t k v

/-- `dict.pop(k, None)`: drop every entry with the given key. -/
def odPop {α β : Type} [DecidableEq α] (m : List (α × β)) (k : α) :
    List (α × β) :=
  match m with
  | [] => []
  | p :: t => if p.1 = k then odPop t k else p :: odPop t k

/-- The keys of an association list, in order. -/
def odKeys {α β : Type} (m : List (α × β)) : List α := m.map Prod.fst

/-- Concatenated image of a list-valued function (used in place of
`List.bind` to keep the development self-contained). -/
def catMap {α β : Type} (f : α → List β) : List α → List β
  | [] => []
  | a :: t => f a ++ catMap f t

/-! ## Data model (`StackFrame`, `DimType`, requests, errors) -/

/-- `StackFrame` from the source: the two ordered maps plus the
read-only references (here: ids) to parent frames, iteration-parent
frames, and the `keep` flag. -/
structure StackFrame where
  name_to_dim : List (String × Int)
  dim_to_name : List (Int × String)
  parents : List Nat
  iter_parents : List Nat
  keep : Bool
deriving DecidableEq

def emptyFrame : StackFrame := ⟨[], [], [], [], false⟩

/-- `StackFrame.read`: `found_name = dim_to_name.get(dim, name)`,
`found_dim = name_to_dim.get(name, dim)`,
`found = name in name_to_dim or dim in dim_to_name`.
A `None` name or dim is never a key of either map (`write` asserts
both non-`None`), so `get(None, default)` returns the default. -/
def frameRead (f : StackFrame) (name : Option String) (dim : Option Int) :
    Option String × Option Int × Bool :=
  let found_name := match dim with
    | some d => match odGet f.dim_to_name d with
      | some n => some n
      | none => name
    | none => name
  let found_dim := match name with
    | some n => match odGet f.name_to_dim n with
      | some d => some d
      | none => dim
    | none => dim
  let found := (match name with
    | some n => (odGet f.name_to_dim n).isSome
    | none => false) || (match dim with
    | some d => (odGet f.dim_to_name d).isSome
    | none => false)
  (found_name, found_dim, found)

/-- `StackFrame.write`: insert/overwrite both directions.  The source
asserts both arguments non-`None`; the embedding's types already
guarantee that. -/
def frameWrite (f : StackFrame) (n : String) (d : Int) : StackFrame :=
  { f with dim_to_name := odSet f.dim_to_name d n,
           name_to_dim := odSet f.name_to_dim n d }

/-- `StackFrame.free`: remove both directions (tolerant of missing
entries); the Python returns the freed pair, which callers archive. -/
def frameFree (f : StackFrame) (n : String) (d : Int) : StackFrame :=
  { f with dim_to_name := odPop f.dim_to_name d,
           name_to_dim := odPop f.name_to_dim n }

/-- `DimType` enum: LOCAL, GLOBAL, VISIBLE. -/
inductive DimType where
  | LOCAL
  | GLOBAL
  | VISIBLE
deriving DecidableEq

/-- `DimRequest = namedtuple('DimRequest', ['dim', 'dim_type'])`. -/
structure DimRequest where
  dim : Option Int
  dim_type : DimType
deriving DecidableEq

/-- `NameRequest = namedtuple('NameRequest', ['name', 'dim_type'])`. -/
structure NameRequest where
  name : Option String
  dim_type : DimType
deriving DecidableEq

/-- The name side of `DimStack.request`: either a concrete value
(possibly `None`) or a `NameRequest`. -/
inductive NameArg where
  | concrete (n : Option String)
  | req (r : NameRequest)
deriving DecidableEq

/-- The dim side of `DimStack.request`: either a concrete value
(possibly `None`) or a `DimRequest`. -/
inductive DimArg where
  | concrete (d : Option Int)
  | req (r : DimRequest)
deriving DecidableEq

/-- The Python exceptions this module can raise: `TypeError` (negating
`None` in the f-string of `_gendim`, or comparing an int with `None`),
`ValueError("Ran out of free dims during allocation for <name>")`
carrying the name, and `AssertionError`. -/
inductive PyErr where
  | typeError
  | valueError (name : String)
  | assertionError
deriving DecidableEq

/-- Decidable equality for `Except` results, so concrete runs can be
checked by `decide`. -/
instance exceptDecidableEq {ε α : Type} [DecidableEq ε] [DecidableEq α] :
    DecidableEq (Except ε α)
  | .ok a, .ok b =>
    if h : a = b then .isTrue (h ▸ rfl)
    else .isFalse (fun he => h (Except.ok.inj he))
  | .error a, .error b =>
    if h : a = b then .isTrue (h ▸ rfl)
    else .isFalse (fun he => h (Except.error.inj he))
  | .ok _, .error _ => .isFalse (fun he => Except.noConfusion he)
  | .error _, .ok _ => .isFalse (fun he => Except.noConfusion he)

/-! ## The `DimStack` -/

/-- `DimStack` state: the store of frame contents keyed by id, the
stack of frame ids (`_stack[0]` = global, last = current), the id
supply, `_first_available_dim`, and `outermost`. `outermost` holds the
id of the owning `DimStackCleanupMessenger` instance, `none` for
Python `None`. -/
structure DimStack where
  store : List (Nat × StackFrame)
  stack : List Nat
  next_id : Nat
  first_available_dim : Option Int
  outermost : Option Nat
deriving DecidableEq

/-- A freshly constructed `DimStack()`: one empty global frame,
`_first_available_dim = -1`, `outermost = None`. -/
def dimStackInit : DimStack :=
  { store := [(0, emptyFrame)], stack := [0], next_id := 1,
    first_available_dim := some (-1), outermost := none }

def MAX_DIM : Int := -25

namespace DimStack

/-- Dereference a frame id in the store (frames are mutable Python
objects; ids play the role of object identity). -/
def getFrame (s : DimStack) (i : Nat) : StackFrame :=
  (odGet s.store i).getD emptyFrame

def setFrame (s : DimStack) (i : Nat) (f : StackFrame) : DimStack :=
  { s with store := odSet s.store i f }

/-- `frame.write(name, dim)` on the frame with id `i`. -/
def writeAt (s : DimStack) (i : Nat) (n : String) (d : Int) : DimStack :=
  s.setFrame i (frameWrite (s.getFrame i) n d)

/-- `frame.free(name, dim)` on the frame with id `i`. -/
def freeAt (s : DimStack) (i : Nat) (n : String) (d : Int) : DimStack :=
  s.setFrame i (frameFree (s.getFrame i) n d)

/-- `DimStack.push(frame)` together with the allocation of a fresh
object identity for the pushed frame. -/
def pushFrame (s : DimStack) (f : StackFrame) : DimStack :=
  { s with store := odSet s.store s.next_id f,
           stack := s.stack ++ [s.next_id],
           next_id := s.next_id + 1 }

/-- `self._stack[-1]`. -/
def currentId (s : DimStack) : Nat := s.stack.getLastD 0

/-- `self._stack[0]`. -/
def globalId (s : DimStack) : Nat := s.stack.headD 0

def current_frame (s : DimStack) : StackFrame := s.getFrame s.currentId

def global_frame (s : DimStack) : StackFrame := s.getFrame s.globalId

/-- `set_first_available_dim`: asserts `dim is None or MAX_DIM < dim < 0`,
swaps the boundary, returns the old one. -/
def set_first_available_dim (s : DimStack) (d : Option Int) :
    Except PyErr (Option Int × DimStack) :=
  match d with
  | none => .ok (s.first_available_dim, { s with first_available_dim := none })
  | some v =>
    if MAX_DIM < v ∧ v < 0 then
      .ok (s.first_available_dim, { s with first_available_dim := some v })
    else .error .assertionError

/-- The conflict frames of `_gendim`:
`(current_frame, global_frame) + current.parents + current.iter_parents`. -/
def conflictIds (s : DimStack) : List Nat :=
  s.currentId :: s.globalId ::
    (s.current_frame.parents ++ s.current_frame.iter_parents)

/-- All dims bound (as keys of `dim_to_name`) in some conflict frame;
`fresh_dim in p.dim_to_name` in the source is membership here. -/
def conflictDims (s : DimStack) : List Int :=
  catMap (fun i => odKeys (s.getFrame i).dim_to_name) (s.conflictIds)

end DimStack

/-- The fresh-dim search `while any(fresh_dim in p.dim_to_name ...):
fresh_dim -= 1`, starting at `d`, with explicit fuel so that the
definition is structurally recursive (and so kernel-evaluable).
Erasing the rejected candidate from `bad` does not change any later
membership test, because the candidates strictly decrease; it makes
`bad.length` fuel provably sufficient. -/
def firstFreeAux (bad : List Int) (d : Int) : Nat → Int
  | 0 => d
  | fuel + 1 => if d ∈ bad then firstFreeAux (bad.erase d) (d - 1) fuel else d

/-- The first candidate, decrementing from `d`, that is not a
currently bound dim (the result of the `while` loop in `_gendim`). -/
def firstFree (bad : List Int) (d : Int) : Int := firstFreeAux bad d bad.length

namespace DimStack

/-- `DimStack._gendim(name_request, dim_request)`.  Name synthesis
(`f"_pyro_dim_{-dim_request.dim}"`) happens first and raises a
`TypeError` when the request carries no dim (`-None`); then the fresh
dim is either the requested one or the first non-colliding candidate
searched downward from `_first_available_dim` (fixed start `-1` for
VISIBLE); finally the candidate is validated.  Note the VISIBLE
boundary comparison `fresh_dim <= self._first_available_dim` is a
Python `TypeError` if the boundary is `None`. -/
def gendim (s : DimStack) (name_request : NameRequest)
    (dim_request : DimRequest) : Except PyErr (String × Int) :=
  let dim_type := dim_request.dim_type
  let freshNameE : Except PyErr String :=
    match name_request.name with
    | none =>
      match dim_request.dim with
      | none => .error .typeError
      | some d => .ok ("_pyro_dim_" ++ toString (-d))
    | some n => .ok n
  match freshNameE with
  | .error e => .error e
  | .ok fresh_name =>
    let bad := s.conflictDims
    let fresh_dim : Int :=
      match dim_request.dim with
      | none =>
        firstFree bad
          (if dim_type = DimType.VISIBLE then -1
           else (s.first_available_dim).getD (-1))
      | some d => d
    if fresh_dim < MAX_DIM then .error (.valueError fresh_name)
    else if fresh_dim ∈ bad then .error (.valueError fresh_name)
    else if dim_type = DimType.VISIBLE then
      match s.first_available_dim with
      | none => .error .typeError
      | some b =>
        if fresh_dim ≤ b then .error (.valueError fresh_name)
        else .ok (fresh_name, fresh_dim)
    else .ok (fresh_name, fresh_dim)

/-- The read set of `request`: only the global frame unless LOCAL, in
which case current, then parents, then iter_parents, then global. -/
def readFrames (s : DimStack) (t : DimType) : List Nat :=
  if t ≠ DimType.LOCAL then [s.globalId]
  else s.currentId ::
    (s.current_frame.parents ++ s.current_frame.iter_parents ++ [s.globalId])

/-- The write set of `request` on a miss: only the global frame unless
LOCAL, in which case the current frame plus (iff `current.keep`) its
parents. -/
def writeFrames (s : DimStack) (t : DimType) : List Nat :=
  if t ≠ DimType.LOCAL then [s.globalId]
  else s.currentId :: (if s.current_frame.keep then s.current_frame.parents else [])

/-- The read loop of `request`: `for frame in read_frames: name, dim,
found = frame.read(name, dim); if found: break`. -/
def readLoop (s : DimStack) : List Nat → Option String → Option Int →
    Option String × Option Int × Bool
  | [], n, d => (n, d, false)
  | i :: t, n, d =>
    let r := frameRead (s.getFrame i) n d
    if r.2.2 then r else readLoop s t r.1 r.2.1

/-- The body of `DimStack.request` after the argument of request type
has been unpacked into `(name, dim, dim_type)`: read the read set in
order, and on a miss synthesize a fresh binding via `_gendim` and
store it into every write frame. -/
def requestCore (s : DimStack) (name : Option String) (dim : Option Int)
    (dim_type : DimType) : Except PyErr (Option String × Option Int × DimStack) :=
  let r := readLoop s (s.readFrames dim_type) name dim
  if r.2.2 then .ok (r.1, r.2.1, s)
  else
    match s.gendim ⟨r.1, dim_type⟩ ⟨r.2.1, dim_type⟩ with
    | .error e => .error e
    | .ok (fn, fd) =>
      .ok (some fn, some fd,
        (s.writeFrames dim_type).foldl (fun t i => t.writeAt i fn fd) s)

/-- `DimStack.request(name, dim)`: asserts exactly one side is a
request wrapper, unpacks it, and runs the core. -/
def request (s : DimStack) (name : NameArg) (dim : DimArg) :
    Except PyErr (Option String × Option Int × DimStack) :=
  match name, dim with
  | .concrete n, .req r => s.requestCore n r.dim r.dim_type
  | .req r, .concrete d => s.requestCore r.name d r.dim_type
  | .req _, .req _ => .error .assertionError
  | .concrete _, .concrete _ => .error .assertionError

end DimStack

/-! ## Messengers

`DimStackCleanupMessenger` and `LocalNamedMessenger` from the source.
The base class `ReentrantMessenger` (imported from
`pyro.poutine.reentrant_messenger`, not part of this repository
snapshot) only maintains `_ref_count`. -/

/-- Modelled from the spec: `ReentrantMessenger` (not under `src/`)
keeps a per-instance nesting counter `_ref_count`; `__enter__`
increments it and `__exit__` decrements it, and the subclasses'
real work runs before that update, guarded by `_ref_count == 0`
(about to become 1) on entry and `_ref_count == 1` (about to become 0)
on exit.  This helper is that final counter update on entry. -/
def refEnter (c : Nat) : Nat := c + 1

/-- Modelled from the spec: the `ReentrantMessenger.__exit__` counter
update (see `refEnter`). -/
def refExit (c : Nat) : Nat := c - 1

/-- State of a `DimStackCleanupMessenger` instance: its Python object
identity (`id`, compared against `_DIM_STACK.outermost`), the
ref-count modelled from the spec, and `_saved_dims`. -/
structure DimStackCleanupMessenger where
  id : Nat
  ref_count : Nat
  saved_dims : List (String × Int)
deriving DecidableEq

/-- `DimStackCleanupMessenger.__enter__`: on the 0→1 transition with no
current owner, become the owner, write the saved global bindings back
into the global frame, and clear them; then the ref-count update. -/
def cleanupEnter (s : DimStack) (m : DimStackCleanupMessenger) :
    DimStack × DimStackCleanupMessenger :=
  let s1 :=
    if m.ref_count = 0 ∧ s.outermost = none then
      m.saved_dims.foldl (fun t p => t.writeAt t.globalId p.1 p.2)
        { s with outermost := some m.id }
    else s
  let m1 :=
    if m.ref_count = 0 ∧ s.outermost = none then { m with saved_dims := [] }
    else m
  (s1, { m1 with ref_count := refEnter m1.ref_count })

/-- `DimStackCleanupMessenger.__exit__`: on the 1→0 transition of the
current owner, stop being the owner and drain the global frame —
iterate a snapshot of `global_frame.name_to_dim.items()` in reverse,
freeing each pair and appending it to `_saved_dims`; then the
ref-count update. -/
def cleanupExit (s : DimStack) (m : DimStackCleanupMessenger) :
    DimStack × DimStackCleanupMessenger :=
  let items := (s.getFrame s.globalId).name_to_dim
  let r := items.reverse.foldl
    (fun (acc : DimStack × List (String × Int)) p =>
      (acc.1.freeAt acc.1.globalId p.1 p.2, acc.2 ++ [p]))
    ({ s with outermost := none }, m.saved_dims)
  let s1 := if m.ref_count = 1 ∧ s.outermost = some m.id then r.1 else s
  let m1 :=
    if m.ref_count = 1 ∧ s.outermost = some m.id then { m with saved_dims := r.2 }
    else m
  (s1, { m1 with ref_count := refExit m1.ref_count })

/-- Python list slicing `l[k:]` for a possibly negative start index
(`_DIM_STACK._stack[len(_DIM_STACK._stack) - self.history:]`). -/
def pySliceFrom {α : Type} (l : List α) (k : Int) : List α :=
  if k ≥ 0 then l.drop k.toNat else l.drop (l.length - (-k).toNat)

/-- State of a `LocalNamedMessenger` instance: constructor arguments
`history` and `keep`, the saved replay frames, the recorded
iteration-parent ids, and the inherited `DimStackCleanupMessenger`
state (`id`, ref-count modelled from the spec, `_saved_dims`). -/
structure LocalNamedMessenger where
  id : Nat
  history : Nat
  keep : Bool
  saved_frames : List StackFrame
  iter_parents : List Nat
  ref_count : Nat
  saved_dims : List (String × Int)
deriving DecidableEq

namespace LocalNamedMessenger

/-- The `DimStackCleanupMessenger` view of a `LocalNamedMessenger`
(the inherited attributes). -/
def toCleanup (m : LocalNamedMessenger) : DimStackCleanupMessenger :=
  ⟨m.id, m.ref_count, m.saved_dims⟩

/-- The frame built by `LocalNamedMessenger.__enter__`: the replayed
saved maps (when `keep` and some are saved) or empty maps, `parents`
the reversed top-`history` slice of the stack, and the controller's
recorded `iter_parents` and `keep`. -/
def enterFrame (s : DimStack) (m : LocalNamedMessenger) : StackFrame :=
  ⟨(if m.keep ∧ m.saved_frames ≠ [] then
      (m.saved_frames.getLastD emptyFrame).name_to_dim else []),
   (if m.keep ∧ m.saved_frames ≠ [] then
      (m.saved_frames.getLastD emptyFrame).dim_to_name else []),
   (pySliceFrom s.stack ((s.stack.length : Int) - (m.history : Int))).reverse,
   m.iter_parents, m.keep⟩

/-- `LocalNamedMessenger.__enter__`: unconditionally build `enterFrame`
(popping the most recently saved frame when replaying), push it, then
run the inherited `DimStackCleanupMessenger.__enter__`. -/
def enter (s : DimStack) (m : LocalNamedMessenger) :
    DimStack × LocalNamedMessenger :=
  let m1 :=
    if m.keep ∧ m.saved_frames ≠ [] then
      { m with saved_frames := m.saved_frames.dropLast }
    else m
  let r := cleanupEnter (s.pushFrame (enterFrame s m)) m1.toCleanup
  (r.1, { m1 with ref_count := r.2.ref_count, saved_dims := r.2.saved_dims })

/-- `LocalNamedMessenger.__exit__`: pop the current frame
(`DimStack.pop` asserts the global frame is never popped); when `keep`,
save its two maps (dropping parent references) for replay; then run
the inherited `DimStackCleanupMessenger.__exit__`. -/
def exit (s : DimStack) (m : LocalNamedMessenger) :
    Except PyErr (DimStack × LocalNamedMessenger) :=
  if s.stack.length > 1 then
    let old := s.getFrame s.currentId
    let s1 := { s with stack := s.stack.dropLast }
    let m1 :=
      if m.keep then
        { m with saved_frames :=
            m.saved_frames ++ [⟨old.name_to_dim, old.dim_to_name, [], [], m.keep⟩] }
      else m
    let r := cleanupExit s1 m1.toCleanup
    .ok (r.1, { m1 with ref_count := r.2.ref_count, saved_dims := r.2.saved_dims })
  else .error .assertionError

end LocalNamedMessenger

/-! ## Iteration-parent closure (`_get_iter_parents` / `__iter__`) -/

/-- One step of the frontier expansion
`frontier = sum([p.iter_parents for p in frontier], ())`. -/
def iterFrontier (s : DimStack) (l : List Nat) : List Nat :=
  catMap (fun i => (s.getFrame i).iter_parents) l

/-- The frontier after `n` expansion steps. -/
def frontierN (s : DimStack) (l : List Nat) : Nat → List Nat
  | 0 => l
  | n + 1 => iterFrontier s (frontierN s l n)

/-- The loop of `_get_iter_parents`: starting from `acc = [frame]` and
`frontier = (frame,)`, repeatedly expand the frontier and append it,
until the frontier is empty.  The Python loop has no fuel — it
terminates because real `iter_parents` graphs are acyclic; theorems
assume the frontier empties within the supplied fuel. -/
def getIterParentsAux (s : DimStack) (acc l : List Nat) : Nat → List Nat
  | 0 => acc
  | fuel + 1 =>
    if l = [] then acc
    else getIterParentsAux s (acc ++ iterFrontier s l) (iterFrontier s l) fuel

/-- `LocalNamedMessenger._get_iter_parents(frame)` (with fuel, see
`getIterParentsAux`). -/
def getIterParents (s : DimStack) (start : Nat) (fuel : Nat) : List Nat :=
  getIterParentsAux s [start] [start] fuel

/-- Reachability along `iter_parents` edges (reflexive-transitive):
the frames the spec's transitive-closure walk collects. -/
inductive ReachIter (s : DimStack) : Nat → Nat → Prop
  | refl (a : Nat) : ReachIter s a a
  | tail {a b c : Nat} : ReachIter s a b → c ∈ (s.getFrame b).iter_parents →
      ReachIter s a c

/-! ## Invariants and auxiliary state definitions -/

/-- The spec's per-frame invariant: `name_to_dim` and `dim_to_name`
are mutual inverses.  Stated over the entries of the two lists so it
is decidable on concrete frames. -/
def FrameInv (f : StackFrame) : Prop :=
  (∀ p ∈ f.name_to_dim, odGet f.name_to_dim p.1 = some p.2 →
      odGet f.dim_to_name p.2 = some p.1) ∧
  (∀ q ∈ f.dim_to_name, odGet f.dim_to_name q.1 = some q.2 →
      odGet f.name_to_dim q.2 = some q.1)

instance (f : StackFrame) : Decidable (FrameInv f) := by
  unfold FrameInv
  infer_instance

/-- All frame contents in the store satisfy the inverse invariant. -/
def StoreInv (s : DimStack) : Prop := ∀ p ∈ s.store, FrameInv p.2

instance (s : DimStack) : Decidable (StoreInv s) := by
  unfold StoreInv
  infer_instance

/-- The spec's cross-frame uniqueness invariant over the conflict set
(current frame, global frame, the current frame's parents and
iteration parents): no two distinct live names resolve to the same
slot.  Stated over the entries of the `name_to_dim` lists (an entry is
live when `odGet` still returns it) so it is decidable on concrete
states. -/
def ConflictUnique (s : DimStack) : Prop :=
  ∀ i ∈ s.conflictIds, ∀ j ∈ s.conflictIds,
    ∀ p ∈ (s.getFrame i).name_to_dim, ∀ q ∈ (s.getFrame j).name_to_dim,
      odGet (s.getFrame i).name_to_dim p.1 = some p.2 →
      odGet (s.getFrame j).name_to_dim q.1 = some q.2 →
      p.2 = q.2 → p.1 = q.1

instance (s : DimStack) : Decidable (ConflictUnique s) := by
  unfold ConflictUnique
  infer_instance

/-- Frame well-formedness: both maps have duplicate-free key lists
(true of any map built by `odSet`/`odPop` from empty) and are mutual
inverses. -/
def FrameWF (f : StackFrame) : Prop :=
  (odKeys f.name_to_dim).Nodup ∧ (odKeys f.dim_to_name).Nodup ∧ FrameInv f

instance (f : StackFrame) : Decidable (FrameWF f) := by
  unfold FrameWF
  infer_instance

/-- Folding `frame.free` over a list of pairs (the global-frame drain). -/
def freeAll (f : StackFrame) (l : List (String × Int)) : StackFrame :=
  l.foldl (fun f p => frameFree f p.1 p.2) f

/-- Folding `frame.write` over a list of pairs (the saved-dims restore). -/
def writeAll (f : StackFrame) (l : List (String × Int)) : StackFrame :=
  l.foldl (fun f p => frameWrite f p.1 p.2) f

/-- The concatenation of the non-trivial frontier layers produced by
the `_get_iter_parents` loop. -/
def layersConcat (s : DimStack) (l : List Nat) : Nat → List Nat
  | 0 => []
  | n + 1 => iterFrontier s l ++ layersConcat s (iterFrontier s l) n

/-- `LocalNamedMessenger.__iter__`'s recording step
`self._iter_parents = self._get_iter_parents(_DIM_STACK.current_frame)`
(with fuel, see `getIterParentsAux`). -/
def iterRecord (s : DimStack) (m : LocalNamedMessenger) (fuel : Nat) :
    LocalNamedMessenger :=
  { m with iter_parents := getIterParents s s.currentId fuel }

/-! ## Concrete states used to exercise the theorems -/

/-- A fresh allocator with the boundary overridden to -2 (the result
of `set_first_available_dim(-2)` on a fresh `DimStack`). -/
def boundaryTwoStack : DimStack :=
  { dimStackInit with first_available_dim := some (-2) }

/-- The state after `request("_pyro_dim_5", DimRequest(None, LOCAL))`
on a fresh allocator. -/
def collide1 : DimStack :=
  ⟨[(0, ⟨[("_pyro_dim_5", -1)], [(-1, "_pyro_dim_5")], [], [], false⟩)],
    [0], 1, some (-1), none⟩

/-- The state after additionally running
`request(NameRequest(None, LOCAL), -5)` on `collide1`: the synthesized
display name `_pyro_dim_5` collides with the existing binding and the
two maps of the global frame stop being mutual inverses. -/
def collide2 : DimStack :=
  ⟨[(0, ⟨[("_pyro_dim_5", -5)], [(-1, "_pyro_dim_5"), (-5, "_pyro_dim_5")], [], [], false⟩)],
    [0], 1, some (-1), none⟩

/-- The state after `request("a", DimRequest(None, LOCAL))` on a fresh
allocator. -/
def aState : DimStack :=
  ⟨[(0, ⟨[("a", -1)], [(-1, "a")], [], [], false⟩)], [0], 1, some (-1), none⟩

/-- The same state, for exercising the invariant-preservation theorem. -/
def aState2 : DimStack :=
  ⟨[(0, ⟨[("a", -1)], [(-1, "a")], [], [], false⟩)], [0], 1, some (-1), none⟩

/-- The state after `request(NameRequest(None, LOCAL), -3)` on a fresh
allocator (the `to_funsor` direction: dim supplied, name synthesized). -/
def dim3State : DimStack :=
  ⟨[(0, ⟨[("_pyro_dim_3", -3)], [(-3, "_pyro_dim_3")], [], [], false⟩)],
    [0], 1, some (-1), none⟩

/-- A `LocalNamedMessenger(history=1, keep=False)` freshly constructed
(object identity 1). -/
def freshLocalMsgr : LocalNamedMessenger := ⟨1, 1, false, [], [], 0, []⟩

/-- The allocator after `freshLocalMsgr.__enter__()` on a fresh stack. -/
def enteredState : DimStack :=
  ⟨[(0, emptyFrame), (1, ⟨[], [], [0], [], false⟩)], [0, 1], 2,
    some (-1), some 1⟩

/-- `freshLocalMsgr` after that enter (ref-count 1). -/
def enteredMsgr : LocalNamedMessenger := ⟨1, 1, false, [], [], 1, []⟩

/-- The allocator after the matching `__exit__()`. -/
def exitedState : DimStack :=
  ⟨[(0, emptyFrame), (1, ⟨[], [], [0], [], false⟩)], [0], 2,
    some (-1), none⟩

/-- `freshLocalMsgr` after the matching exit (ref-count back to 0). -/
def exitedMsgr : LocalNamedMessenger := ⟨1, 1, false, [], [], 0, []⟩

/-- A state whose global frame holds two bindings, owned by cleanup
messenger 3 at nesting depth 1. -/
def ownedGlobalState : DimStack :=
  ⟨[(0, ⟨[("a", -1), ("b", -2)], [(-1, "a"), (-2, "b")], [], [], false⟩)],
    [0], 1, some (-1), some 3⟩

/-- The owning cleanup messenger of `ownedGlobalState`. -/
def ownerMsgr : DimStackCleanupMessenger := ⟨3, 1, []⟩

/-- A stack with one entered `keep=True` local frame binding `x → -1`. -/
def keepState : DimStack :=
  ⟨[(0, emptyFrame), (1, ⟨[("x", -1)], [(-1, "x")], [0], [], true⟩)],
    [0, 1], 2, some (-1), none⟩

/-- The `keep=True` controller owning the top frame of `keepState`. -/
def keepMsgr : LocalNamedMessenger := ⟨5, 1, true, [], [], 1, []⟩

/-- A stack whose current frame (id 1) has frame 0 as iteration
parent. -/
def iterState : DimStack :=
  ⟨[(0, emptyFrame), (1, ⟨[], [], [], [0], false⟩)], [0, 1], 2,
    some (-1), none⟩

/-! ## Lemmas about the ordered-map primitives -/

theorem odGet_odSet_self {α β : Type} [DecidableEq α]
    (m : List (α × β)) (k : α) (v : β) : odGet (odSet m k v) k = some v := by
  induction m with
  | nil => simp [odSet, odGet]
  | cons p t ih =>
    by_cases h : p.1 = k
    · simp [odSet, h, odGet]
    · simp [odSet, h, odGet, ih]

theorem odGet_odSet_ne {α β : Type} [DecidableEq α]
    (m : List (α × β)) (k k' : α) (v : β) (h : k' ≠ k) :
    odGet (odSet m k v) k' = odGet m k' := by
  have hks : k ≠ k' := fun he => h he.symm
  induction m with
  | nil => simp [odSet, odGet, hks]
  | cons p t ih =>
    by_cases hp : p.1 = k
    · subst hp
      simp [odSet, odGet, hks]
    · simp only [odSet, if_neg hp]
      by_cases hp' : p.1 = k'
      · simp [odGet, hp']
      · simp [odGet, hp', ih]

theorem odGet_odPop_self {α β : Type} [DecidableEq α]
    (m : List (α × β)) (k : α) : odGet (odPop m k) k = none := by
  induction m with
  | nil => simp [odPop, odGet]
  | cons p t ih =>
    by_cases h : p.1 = k
    · simp [odPop, h, ih]
    · simp [odPop, h, odGet, ih]

theorem odGet_odPop_ne {α β : Type} [DecidableEq α]
    (m : List (α × β)) (k k' : α) (h : k' ≠ k) :
    odGet (odPop m k) k' = odGet m k' := by
  have hks : k ≠ k' := fun he => h he.symm
  induction m with
  | nil => simp [odPop]
  | cons p t ih =>
    by_cases hp : p.1 = k
    · subst hp
      simp [odPop, odGet, hks, ih]
    · simp only [odPop, if_neg hp]
      by_cases hp' : p.1 = k'
      · simp [odGet, hp']
      · simp [odGet, hp', ih]

theorem odGet_some_mem {α β : Type} [DecidableEq α]
    {m : List (α × β)} {k : α} {v : β} (h : odGet m k = some v) : (k, v) ∈ m := by
  induction m with
  | nil => simp [odGet] at h
  | cons p t ih =>
    by_cases hp : p.1 = k
    · subst hp
      simp [odGet] at h
      subst h
      exact List.mem_cons_self _ _
    · simp [odGet, hp] at h
      exact List.mem_cons_of_mem _ (ih h)

theorem mem_odSet {α β : Type} [DecidableEq α]
    {m : List (α × β)} {k : α} {v : β} {p : α × β} (h : p ∈ odSet m k v) :
    p = (k, v) ∨ p ∈ m := by
  induction m with
  | nil => simpa [odSet] using h
  | cons q t ih =>
    by_cases hq : q.1 = k
    · simp only [odSet, if_pos hq, List.mem_cons] at h
      rcases h with h | h
      · exact Or.inl h
      · exact Or.inr (List.mem_cons_of_mem _ h)
    · simp only [odSet, if_neg hq, List.mem_cons] at h
      rcases h with h | h
      · exact Or.inr (by simp [h])
      · rcases ih h with h' | h'
        · exact Or.inl h'
        · exact Or.inr (List.mem_cons_of_mem _ h')

theorem odGet_all_none_nil {α β : Type} [DecidableEq α]
    {m : List (α × β)} (h : ∀ k, odGet m k = none) : m = [] := by
  cases m with
  | nil => rfl
  | cons p t => simpa [odGet] using h p.1

theorem mem_catMap {α β : Type} {f : α → List β} {l : List α} {x : β} :
    x ∈ catMap f l ↔ ∃ a ∈ l, x ∈ f a := by
  induction l with
  | nil => simp [catMap]
  | cons a t ih =>
    simp only [catMap, List.mem_append, ih, List.mem_cons]
    constructor
    · rintro (h | ⟨b, hb, hx⟩)
      · exact ⟨a, Or.inl rfl, h⟩
      · exact ⟨b, Or.inr hb, hx⟩
    · rintro ⟨b, (rfl | hb), hx⟩
      · exact Or.inl hx
      · exact Or.inr ⟨b, hb, hx⟩

/-! ## Lemmas about the fresh-dim search -/

theorem firstFreeAux_le (fuel : Nat) : ∀ (bad : List Int) (d : Int),
    firstFreeAux bad d fuel ≤ d := by
  induction fuel with
  | zero => intro bad d; rw [firstFreeAux]
  | succ fuel ih =>
    intro bad d
    rw [firstFreeAux]
    by_cases h : d ∈ bad
    · rw [if_pos h]
      have := ih (bad.erase d) (d - 1)
      omega
    · rw [if_neg h]

theorem firstFreeAux_not_mem (fuel : Nat) : ∀ (bad : List Int) (d : Int),
    bad.length ≤ fuel → firstFreeAux bad d fuel ∉ bad := by
  induction fuel with
  | zero =>
    intro bad d hlen
    rw [List.length_eq_zero.mp (Nat.le_zero.mp hlen)]
    simp
  | succ fuel ih =>
    intro bad d hlen
    rw [firstFreeAux]
    by_cases h : d ∈ bad
    · rw [if_pos h]
      intro hmem
      have hlen' : (bad.erase d).length ≤ fuel := by
        rw [List.length_erase_of_mem h]
        omega
      have hle : firstFreeAux (bad.erase d) (d - 1) fuel ≤ d - 1 :=
        firstFreeAux_le _ _ _
      have hne : firstFreeAux (bad.erase d) (d - 1) fuel ≠ d := by omega
      exact ih (bad.erase d) (d - 1) hlen' ((List.mem_erase_of_ne hne).mpr hmem)
    · rw [if_neg h]
      exact h

theorem firstFreeAux_between (fuel : Nat) : ∀ (bad : List Int) (d : Int),
    bad.length ≤ fuel → ∀ e, firstFreeAux bad d fuel < e → e ≤ d → e ∈ bad := by
  induction fuel with
  | zero =>
    intro bad d _ e hlt hle
    rw [firstFreeAux] at hlt
    omega
  | succ fuel ih =>
    intro bad d hlen e hlt hle
    rw [firstFreeAux] at hlt
    by_cases h : d ∈ bad
    · rw [if_pos h] at hlt
      by_cases he : e = d
      · subst he; exact h
      · have hlen' : (bad.erase d).length ≤ fuel := by
          rw [List.length_erase_of_mem h]
          have := List.length_pos.mpr (List.ne_nil_of_mem h)
          omega
        have : e ≤ d - 1 := by omega
        exact List.mem_of_mem_erase (ih (bad.erase d) (d - 1) hlen' e hlt this)
    · rw [if_neg h] at hlt
      omega

theorem firstFree_le (bad : List Int) (d : Int) : firstFree bad d ≤ d :=
  firstFreeAux_le _ _ _

theorem firstFree_not_mem (bad : List Int) (d : Int) : firstFree bad d ∉ bad :=
  firstFreeAux_not_mem _ _ _ (le_refl _)

theorem firstFree_between (bad : List Int) (d : Int) :
    ∀ e, firstFree bad d < e → e ≤ d → e ∈ bad :=
  firstFreeAux_between _ _ _ (le_refl _)

theorem le_firstFree_of_not_mem (bad : List Int) (d e : Int)
    (hle : e ≤ d) (hnm : e ∉ bad) : e ≤ firstFree bad d := by
  by_contra hlt
  exact hnm (firstFree_between bad d e (by omega) hle)

/-! ## Lemmas about reads -/

theorem frameRead_not_found {f : StackFrame} {n : Option String} {d : Option Int}
    (h : (frameRead f n d).2.2 = false) : frameRead f n d = (n, d, false) := by
  cases n with
  | none =>
    cases d with
    | none => rfl
    | some y =>
      simp only [frameRead, Bool.false_or] at h ⊢
      cases hv : odGet f.dim_to_name y with
      | none => simp [hv]
      | some w => simp [hv] at h
  | some x =>
    cases d with
    | none =>
      simp only [frameRead, Bool.or_false] at h ⊢
      cases hv : odGet f.name_to_dim x with
      | none => simp [hv]
      | some w => simp [hv] at h
    | some y =>
      simp only [frameRead, Bool.or_eq_false_iff] at h
      cases hv : odGet f.name_to_dim x with
      | some w => simp [hv] at h
      | none =>
        cases hw : odGet f.dim_to_name y with
        | some u => simp [hw] at h
        | none => simp [frameRead, hv, hw]

theorem readLoop_not_found {s : DimStack} {ids : List Nat}
    {n : Option String} {d : Option Int}
    (h : (DimStack.readLoop s ids n d).2.2 = false) :
    DimStack.readLoop s ids n d = (n, d, false) ∧
      ∀ i ∈ ids, (frameRead (s.getFrame i) n d).2.2 = false := by
  induction ids with
  | nil => exact ⟨rfl, by simp⟩
  | cons i t ih =>
    by_cases hf : (frameRead (s.getFrame i) n d).2.2 = true
    · rw [DimStack.readLoop, if_pos hf] at h
      rw [hf] at h
      simp at h
    · have hf' : (frameRead (s.getFrame i) n d).2.2 = false := by
        simpa using hf
      have hid := frameRead_not_found hf'
      rw [DimStack.readLoop, hid] at h
      simp only at h
      rw [if_neg (by simp)] at h
      obtain ⟨heq, hall⟩ := ih h
      refine ⟨?_, ?_⟩
      · rw [DimStack.readLoop, hid]
        simpa using heq
      · intro j hj
        rcases List.mem_cons.mp hj with rfl | hj
        · exact hf'
        · exact hall j hj

/-! ## The frame invariant (mutual inverses) -/

theorem frameInv_iff (f : StackFrame) :
    FrameInv f ↔ ∀ (n : String) (d : Int),
      (odGet f.name_to_dim n = some d ↔ odGet f.dim_to_name d = some n) := by
  constructor
  · rintro ⟨h1, h2⟩ n d
    constructor
    · intro h
      exact h1 (n, d) (odGet_some_mem h) h
    · intro h
      exact h2 (d, n) (odGet_some_mem h) h
  · intro h
    exact ⟨fun p _ hp => (h p.1 p.2).mp hp, fun q _ hq => (h q.2 q.1).mpr hq⟩

theorem frameInv_empty : FrameInv emptyFrame := by
  constructor <;> simp [emptyFrame]

/-- `write` preserves the inverse invariant when the pair is either
completely fresh for the frame or already bound exactly as written. -/
theorem frameWrite_inv {f : StackFrame} {x : String} {d : Int}
    (hf : FrameInv f)
    (h : (odGet f.name_to_dim x = none ∧ odGet f.dim_to_name d = none) ∨
         (odGet f.name_to_dim x = some d ∧ odGet f.dim_to_name d = some x)) :
    FrameInv (frameWrite f x d) := by
  rw [frameInv_iff] at hf ⊢
  intro a b
  simp only [frameWrite]
  by_cases ha : a = x
  · subst ha
    by_cases hb : b = d
    · subst hb
      simp [odGet_odSet_self]
    · rw [odGet_odSet_self, odGet_odSet_ne _ _ _ _ hb]
      constructor
      · intro hbd
        exact absurd (Option.some.inj hbd).symm hb
      · intro hR
        have := (hf a b).mpr hR
        rcases h with ⟨h1, _⟩ | ⟨h1, _⟩
        · rw [h1] at this
          exact absurd this (by simp)
        · rw [h1] at this
          exact absurd (Option.some.inj this).symm hb
  · by_cases hb : b = d
    · subst hb
      rw [odGet_odSet_ne _ _ _ _ ha, odGet_odSet_self]
      constructor
      · intro hL
        have := (hf a b).mp hL
        rcases h with ⟨_, h2⟩ | ⟨_, h2⟩
        · rw [h2] at this
          exact absurd this (by simp)
        · rw [h2] at this
          exact absurd (Option.some.inj this).symm ha
      · intro hax
        exact absurd (Option.some.inj hax).symm ha
    · rw [odGet_odSet_ne _ _ _ _ ha, odGet_odSet_ne _ _ _ _ hb]
      exact hf a b

theorem StoreInv.getFrame {s : DimStack} (h : StoreInv s) (i : Nat) :
    FrameInv (s.getFrame i) := by
  unfold DimStack.getFrame
  cases hg : odGet s.store i with
  | none => exact frameInv_empty
  | some f => exact h (i, f) (odGet_some_mem hg)

/-! ## Store update lemmas -/

theorem getFrame_writeAt_self (s : DimStack) (i : Nat) (x : String) (d : Int) :
    (s.writeAt i x d).getFrame i = frameWrite (s.getFrame i) x d := by
  simp [DimStack.writeAt, DimStack.setFrame, DimStack.getFrame, odGet_odSet_self]

theorem getFrame_writeAt_ne (s : DimStack) {i j : Nat} (x : String) (d : Int)
    (h : j ≠ i) : (s.writeAt i x d).getFrame j = s.getFrame j := by
  simp [DimStack.writeAt, DimStack.setFrame, DimStack.getFrame,
    odGet_odSet_ne _ _ _ _ h]

theorem getFrame_freeAt_self (s : DimStack) (i : Nat) (x : String) (d : Int) :
    (s.freeAt i x d).getFrame i = frameFree (s.getFrame i) x d := by
  simp [DimStack.freeAt, DimStack.setFrame, DimStack.getFrame, odGet_odSet_self]

theorem getFrame_freeAt_ne (s : DimStack) {i j : Nat} (x : String) (d : Int)
    (h : j ≠ i) : (s.freeAt i x d).getFrame j = s.getFrame j := by
  simp [DimStack.freeAt, DimStack.setFrame, DimStack.getFrame,
    odGet_odSet_ne _ _ _ _ h]

theorem StoreInv.writeAt {s : DimStack} {i : Nat} {x : String} {d : Int}
    (hs : StoreInv s)
    (h : (odGet (s.getFrame i).name_to_dim x = none ∧
          odGet (s.getFrame i).dim_to_name d = none) ∨
         (odGet (s.getFrame i).name_to_dim x = some d ∧
          odGet (s.getFrame i).dim_to_name d = some x)) :
    StoreInv (s.writeAt i x d) := by
  intro p hp
  rcases mem_odSet hp with rfl | hp'
  · exact frameWrite_inv (hs.getFrame i) h
  · exact hs p hp'

/-- A state and a successor differ only in the frame store at the
given ids; the stack/bookkeeping fields are untouched by `writeAt`. -/
theorem writeAt_stack (s : DimStack) (i : Nat) (x : String) (d : Int) :
    (s.writeAt i x d).stack = s.stack := rfl

theorem freeAt_stack (s : DimStack) (i : Nat) (x : String) (d : Int) :
    (s.freeAt i x d).stack = s.stack := rfl

/-! ## Write-fold lemmas (the `for frame in write_frames` loop) -/

theorem foldl_writeAt_getFrame_not_mem {ws : List Nat} {s : DimStack}
    {x : String} {d : Int} {i : Nat} (h : i ∉ ws) :
    ((ws.foldl (fun t j => t.writeAt j x d) s)).getFrame i = s.getFrame i := by
  induction ws generalizing s with
  | nil => rfl
  | cons j t ih =>
    have hij : i ≠ j := fun he => h (he ▸ List.mem_cons_self j t)
    have hit : i ∉ t := fun hm => h (List.mem_cons_of_mem _ hm)
    rw [List.foldl_cons, ih hit, getFrame_writeAt_ne _ _ _ hij]

theorem foldl_writeAt_getFrame_mem {ws : List Nat} {s : DimStack}
    {x : String} {d : Int} {i : Nat} (h : i ∈ ws) :
    odGet ((ws.foldl (fun t j => t.writeAt j x d) s).getFrame i).name_to_dim x
      = some d ∧
    odGet ((ws.foldl (fun t j => t.writeAt j x d) s).getFrame i).dim_to_name d
      = some x := by
  induction ws generalizing s with
  | nil => simp at h
  | cons j t ih =>
    by_cases hit : i ∈ t
    · rw [List.foldl_cons]
      exact ih hit
    · have hij : i = j := by
        rcases List.mem_cons.mp h with h' | h'
        · exact h'
        · exact absurd h' hit
      subst hij
      rw [List.foldl_cons, foldl_writeAt_getFrame_not_mem hit,
        getFrame_writeAt_self]
      simp [frameWrite, odGet_odSet_self]

theorem foldl_writeAt_stack (ws : List Nat) (s : DimStack)
    (x : String) (d : Int) :
    (ws.foldl (fun t j => t.writeAt j x d) s).stack = s.stack := by
  induction ws generalizing s with
  | nil => rfl
  | cons j t ih => rw [List.foldl_cons, ih, writeAt_stack]

theorem foldl_writeAt_storeInv {ws : List Nat} {s : DimStack}
    {x : String} {d : Int} (hs : StoreInv s)
    (h : ∀ i ∈ ws,
      (odGet (s.getFrame i).name_to_dim x = none ∧
       odGet (s.getFrame i).dim_to_name d = none) ∨
      (odGet (s.getFrame i).name_to_dim x = some d ∧
       odGet (s.getFrame i).dim_to_name d = some x)) :
    StoreInv (ws.foldl (fun t j => t.writeAt j x d) s) := by
  induction ws generalizing s with
  | nil => exact hs
  | cons j t ih =>
    rw [List.foldl_cons]
    refine ih (hs.writeAt (h j (List.mem_cons_self j t))) ?_
    intro i hi
    by_cases hij : i = j
    · subst hij
      rw [getFrame_writeAt_self]
      right
      simp [frameWrite, odGet_odSet_self]
    · rw [getFrame_writeAt_ne _ _ _ hij]
      exact h i (List.mem_cons_of_mem _ hi)

/-! ## Characterizations of `request` / `_gendim` -/

/-- A request whose name side is the wrapper reduces to the common
core (`name, dim_type = name.name, name.dim_type`). -/
theorem request_name_side (s : DimStack) (nm : Option String) (dm : Option Int)
    (t : DimType) :
    s.request (.req ⟨nm, t⟩) (.concrete dm) = s.requestCore nm dm t := rfl

/-- A request whose dim side is the wrapper reduces to the common core
(`dim, dim_type = dim.dim, dim.dim_type`). -/
theorem request_dim_side (s : DimStack) (nm : Option String) (dm : Option Int)
    (t : DimType) :
    s.request (.concrete nm) (.req ⟨dm, t⟩) = s.requestCore nm dm t := rfl

/-- On a miss, `request` synthesizes via `_gendim` and stores into the
write frames. -/
theorem requestCore_miss {s : DimStack} {nm : Option String} {dm : Option Int}
    {t : DimType}
    (h : (DimStack.readLoop s (s.readFrames t) nm dm).2.2 = false) :
    s.requestCore nm dm t =
      match s.gendim ⟨nm, t⟩ ⟨dm, t⟩ with
      | .error e => .error e
      | .ok (fn, fd) =>
        .ok (some fn, some fd,
          (s.writeFrames t).foldl (fun u i => u.writeAt i fn fd) s) := by
  obtain ⟨heq, -⟩ := readLoop_not_found h
  unfold DimStack.requestCore
  rw [heq]
  rfl

/-- On a hit, `request` returns the resolved pair and leaves the state
untouched. -/
theorem requestCore_found {s : DimStack} {nm : Option String} {dm : Option Int}
    {t : DimType}
    (h : (DimStack.readLoop s (s.readFrames t) nm dm).2.2 = true) :
    s.requestCore nm dm t =
      .ok ((DimStack.readLoop s (s.readFrames t) nm dm).1,
           (DimStack.readLoop s (s.readFrames t) nm dm).2.1, s) := by
  unfold DimStack.requestCore
  rw [if_pos h]

/-- `_gendim` for a supplied name, no dim, LOCAL/GLOBAL: the fresh dim
is the first non-colliding candidate searched down from
`_first_available_dim` (default -1), and the request fails exactly
when that candidate passed `MAX_DIM`. -/
theorem gendim_named_nodim (s : DimStack) (x : String) (t : DimType)
    (ht : t ≠ DimType.VISIBLE) :
    s.gendim ⟨some x, t⟩ ⟨none, t⟩ =
      (if firstFree s.conflictDims ((s.first_available_dim).getD (-1)) < MAX_DIM
       then .error (.valueError x)
       else .ok (x, firstFree s.conflictDims ((s.first_available_dim).getD (-1)))) := by
  have hnm := firstFree_not_mem s.conflictDims ((s.first_available_dim).getD (-1))
  unfold DimStack.gendim
  simp only [if_neg ht]
  by_cases hlt : firstFree s.conflictDims ((s.first_available_dim).getD (-1)) < MAX_DIM
  · rw [if_pos hlt, if_pos hlt]
  · rw [if_neg hlt, if_neg hlt, if_neg hnm]

/-- `_gendim` for a supplied name, no dim, VISIBLE with a concrete
boundary: the search starts at -1, and any result at or below the
boundary is rejected. -/
theorem gendim_named_visible (s : DimStack) (x : String) (b : Int)
    (hb : s.first_available_dim = some b) :
    s.gendim ⟨some x, DimType.VISIBLE⟩ ⟨none, DimType.VISIBLE⟩ =
      (if firstFree s.conflictDims (-1) < MAX_DIM
       then .error (.valueError x)
       else if firstFree s.conflictDims (-1) ≤ b
       then .error (.valueError x)
       else .ok (x, firstFree s.conflictDims (-1))) := by
  have hnm := firstFree_not_mem s.conflictDims (-1)
  unfold DimStack.gendim
  rw [hb]
  simp only [reduceIte]
  by_cases hlt : firstFree s.conflictDims (-1) < MAX_DIM
  · rw [if_pos hlt, if_pos hlt]
  · rw [if_neg hlt, if_neg hlt, if_neg hnm]

/-- A successful nameless `_gendim` with a supplied dim returns that
dim, and the display name is the string `_pyro_dim_` followed by the
negated requested dim. -/
theorem gendim_ok_nameless {s : DimStack} {t : DimType} {d : Int}
    {fn : String} {fd : Int}
    (h : s.gendim ⟨none, t⟩ ⟨some d, t⟩ = .ok (fn, fd)) :
    fn = "_pyro_dim_" ++ toString (-d) ∧ fd = d := by
  unfold DimStack.gendim at h
  dsimp only at h
  by_cases h1 : (d : Int) < MAX_DIM
  · rw [if_pos h1] at h
    exact absurd h (by simp)
  · rw [if_neg h1] at h
    by_cases h2 : d ∈ s.conflictDims
    · rw [if_pos h2] at h
      exact absurd h (by simp)
    · rw [if_neg h2] at h
      by_cases h3 : t = DimType.VISIBLE
      · rw [if_pos h3] at h
        cases hf : s.first_available_dim with
        | none =>
          rw [hf] at h
          exact absurd h (by simp)
        | some b =>
          rw [hf] at h
          dsimp only at h
          by_cases h4 : d ≤ b
          · rw [if_pos h4] at h
            exact absurd h (by simp)
          · rw [if_neg h4] at h
            simp only [Except.ok.injEq, Prod.mk.injEq] at h
            exact ⟨h.1.symm, h.2.symm⟩
      · rw [if_neg h3] at h
        simp only [Except.ok.injEq, Prod.mk.injEq] at h
        exact ⟨h.1.symm, h.2.symm⟩

/-- Any successful `_gendim` returns a dim absent from every conflict
frame, and echoes a supplied name. -/
theorem gendim_ok_facts {s : DimStack} {nr : NameRequest} {dr : DimRequest}
    {fn : String} {fd : Int} (h : s.gendim nr dr = .ok (fn, fd)) :
    fd ∉ s.conflictDims ∧ (∀ x, nr.name = some x → fn = x) := by
  unfold DimStack.gendim at h
  rcases nr with ⟨nName, nT⟩
  rcases dr with ⟨dDim, dT⟩
  cases nName with
  | none =>
    cases dDim with
    | none => exact absurd h (by simp)
    | some d0 =>
      dsimp only at h
      refine ⟨?_, by simp⟩
      by_cases h1 : (d0 : Int) < MAX_DIM
      · rw [if_pos h1] at h
        exact absurd h (by simp)
      · rw [if_neg h1] at h
        by_cases h2 : d0 ∈ s.conflictDims
        · rw [if_pos h2] at h
          exact absurd h (by simp)
        · rw [if_neg h2] at h
          by_cases h3 : dT = DimType.VISIBLE
          · rw [if_pos h3] at h
            cases hf : s.first_available_dim with
            | none =>
              rw [hf] at h
              exact absurd h (by simp)
            | some b =>
              rw [hf] at h
              dsimp only at h
              by_cases h4 : d0 ≤ b
              · rw [if_pos h4] at h
                exact absurd h (by simp)
              · rw [if_neg h4] at h
                simp only [Except.ok.injEq, Prod.mk.injEq] at h
                exact h.2 ▸ h2
          · rw [if_neg h3] at h
            simp only [Except.ok.injEq, Prod.mk.injEq] at h
            exact h.2 ▸ h2
  | some x0 =>
    cases dDim with
    | none =>
      dsimp only at h
      generalize hG : (if dT = DimType.VISIBLE then (-1 : Int)
        else (s.first_available_dim).getD (-1)) = st at h
      have hcnm : firstFree s.conflictDims st ∉ s.conflictDims :=
        firstFree_not_mem _ _
      by_cases h1 : firstFree s.conflictDims st < MAX_DIM
      · rw [if_pos h1] at h
        exact absurd h (by simp)
      · rw [if_neg h1, if_neg hcnm] at h
        by_cases h3 : dT = DimType.VISIBLE
        · rw [if_pos h3] at h
          cases hf : s.first_available_dim with
          | none =>
            rw [hf] at h
            exact absurd h (by simp)
          | some b =>
            rw [hf] at h
            dsimp only at h
            by_cases h4 : firstFree s.conflictDims st ≤ b
            · rw [if_pos h4] at h
              exact absurd h (by simp)
            · rw [if_neg h4] at h
              simp only [Except.ok.injEq, Prod.mk.injEq] at h
              refine ⟨h.2 ▸ hcnm, fun x hx => ?_⟩
              cases hx
              exact h.1.symm
        · rw [if_neg h3] at h
          simp only [Except.ok.injEq, Prod.mk.injEq] at h
          refine ⟨h.2 ▸ hcnm, fun x hx => ?_⟩
          cases hx
          exact h.1.symm
    | some d0 =>
      dsimp only at h
      by_cases h1 : (d0 : Int) < MAX_DIM
      · rw [if_pos h1] at h
        exact absurd h (by simp)
      · rw [if_neg h1] at h
        by_cases h2 : d0 ∈ s.conflictDims
        · rw [if_pos h2] at h
          exact absurd h (by simp)
        · rw [if_neg h2] at h
          by_cases h3 : dT = DimType.VISIBLE
          · rw [if_pos h3] at h
            cases hf : s.first_available_dim with
            | none =>
              rw [hf] at h
              exact absurd h (by simp)
            | some b =>
              rw [hf] at h
              dsimp only at h
              by_cases h4 : d0 ≤ b
              · rw [if_pos h4] at h
                exact absurd h (by simp)
              · rw [if_neg h4] at h
                simp only [Except.ok.injEq, Prod.mk.injEq] at h
                refine ⟨h.2 ▸ h2, fun x hx => ?_⟩
                cases hx
                exact h.1.symm
          · rw [if_neg h3] at h
            simp only [Except.ok.injEq, Prod.mk.injEq] at h
            refine ⟨h.2 ▸ h2, fun x hx => ?_⟩
            cases hx
            exact h.1.symm

/-! ## Small list lemmas -/

theorem getLastD_concat {α : Type} (l : List α) (a d : α) :
    (l ++ [a]).getLastD d = a := by
  induction l with
  | nil => rfl
  | cons x t ih =>
    cases t with
    | nil => rfl
    | cons y u => simpa using ih

theorem headD_append_left {α : Type} (l l' : List α) (d : α) (h : l ≠ []) :
    (l ++ l').headD d = l.headD d := by
  cases l with
  | nil => exact absurd rfl h
  | cons x t => rfl

theorem headD_mem {α : Type} {l : List α} (d : α) (h : l ≠ []) :
    l.headD d ∈ l := by
  cases l with
  | nil => exact absurd rfl h
  | cons x t => exact List.mem_cons_self _ _

theorem mem_of_mem_dropLast {α : Type} {l : List α} {a : α}
    (h : a ∈ l.dropLast) : a ∈ l := by
  induction l with
  | nil => simp at h
  | cons x t ih =>
    cases t with
    | nil => simp at h
    | cons y u =>
      rcases List.mem_cons.mp h with rfl | h'
      · exact List.mem_cons_self _ _
      · exact List.mem_cons_of_mem _ (ih h')

/-! ## More ordered-map lemmas -/

theorem odGet_mem_keys {α β : Type} [DecidableEq α] {m : List (α × β)}
    {k : α} {v : β} (h : odGet m k = some v) : k ∈ m.map Prod.fst :=
  List.mem_map_of_mem Prod.fst (odGet_some_mem h)

theorem mem_odGet_of_nodup {α β : Type} [DecidableEq α] {m : List (α × β)}
    (hn : (m.map Prod.fst).Nodup) {k : α} {v : β} (h : (k, v) ∈ m) :
    odGet m k = some v := by
  induction m with
  | nil => simp at h
  | cons p t ih =>
    rcases List.mem_cons.mp h with h' | h'
    · rw [← h']
      simp [odGet]
    · have hne : p.1 ≠ k := by
        intro he
        have : p.1 ∈ t.map Prod.fst := he ▸ List.mem_map_of_mem Prod.fst h'
        exact (List.nodup_cons.mp hn).1 this
      simp only [odGet, if_neg hne]
      exact ih (List.nodup_cons.mp hn).2 h'

theorem odGet_eq_none_of_not_mem_keys {α β : Type} [DecidableEq α]
    {m : List (α × β)} {k : α} (h : k ∉ m.map Prod.fst) : odGet m k = none := by
  cases hv : odGet m k with
  | none => rfl
  | some v => exact absurd (odGet_mem_keys hv) h

theorem odGet_popFold {α β γ : Type} [DecidableEq α] (g : γ → α)
    (l : List γ) : ∀ (m : List (α × β)) (x : α),
    odGet (l.foldl (fun m p => odPop m (g p)) m) x =
      if x ∈ l.map g then none else odGet m x := by
  induction l with
  | nil => intro m x; simp
  | cons p t ih =>
    intro m x
    rw [List.foldl_cons, ih]
    by_cases hx : x ∈ t.map g
    · simp [hx]
    · by_cases hxp : x = g p
      · simp [hx, hxp, odGet_odPop_self]
      · simp [hx, hxp, odGet_odPop_ne _ _ _ hxp]

/-! ## `freeAll` / `writeAll` lemmas -/

theorem freeAll_name_to_dim (l : List (String × Int)) : ∀ f : StackFrame,
    (freeAll f l).name_to_dim = l.foldl (fun m p => odPop m p.1) f.name_to_dim := by
  induction l with
  | nil => intro f; rfl
  | cons p t ih => intro f; exact ih _

theorem freeAll_dim_to_name (l : List (String × Int)) : ∀ f : StackFrame,
    (freeAll f l).dim_to_name = l.foldl (fun m p => odPop m p.2) f.dim_to_name := by
  induction l with
  | nil => intro f; rfl
  | cons p t ih => intro f; exact ih _

theorem writeAll_name_to_dim_not_mem (l : List (String × Int)) :
    ∀ (f : StackFrame) (x : String), x ∉ l.map Prod.fst →
    odGet (writeAll f l).name_to_dim x = odGet f.name_to_dim x := by
  induction l with
  | nil => intro f x _; rfl
  | cons p t ih =>
    intro f x hx
    have hx1 : x ∉ t.map Prod.fst := fun h => hx (List.mem_cons_of_mem _ h)
    have hx2 : x ≠ p.1 := fun h => hx (h ▸ List.mem_cons_self _ _)
    unfold writeAll
    rw [List.foldl_cons]
    have := ih (frameWrite f p.1 p.2) x hx1
    unfold writeAll at this
    rw [this]
    exact odGet_odSet_ne _ _ _ _ hx2

theorem writeAll_dim_to_name_not_mem (l : List (String × Int)) :
    ∀ (f : StackFrame) (y : Int), y ∉ l.map Prod.snd →
    odGet (writeAll f l).dim_to_name y = odGet f.dim_to_name y := by
  induction l with
  | nil => intro f y _; rfl
  | cons p t ih =>
    intro f y hy
    have hy1 : y ∉ t.map Prod.snd := fun h => hy (List.mem_cons_of_mem _ h)
    have hy2 : y ≠ p.2 := fun h => hy (h ▸ List.mem_cons_self _ _)
    unfold writeAll
    rw [List.foldl_cons]
    have := ih (frameWrite f p.1 p.2) y hy1
    unfold writeAll at this
    rw [this]
    exact odGet_odSet_ne _ _ _ _ hy2

theorem writeAll_present (l : List (String × Int)) :
    ∀ f : StackFrame, (l.map Prod.fst).Nodup → (l.map Prod.snd).Nodup →
    ∀ p ∈ l, odGet (writeAll f l).name_to_dim p.1 = some p.2 ∧
             odGet (writeAll f l).dim_to_name p.2 = some p.1 := by
  induction l with
  | nil => intro f _ _ p hp; simp at hp
  | cons q t ih =>
    intro f hn1 hn2 p hp
    rcases List.mem_cons.mp hp with rfl | hp'
    · have h1 : p.1 ∉ t.map Prod.fst := (List.nodup_cons.mp hn1).1
      have h2 : p.2 ∉ t.map Prod.snd := (List.nodup_cons.mp hn2).1
      unfold writeAll
      rw [List.foldl_cons]
      constructor
      · have := writeAll_name_to_dim_not_mem t (frameWrite f p.1 p.2) p.1 h1
        unfold writeAll at this
        rw [this]
        exact odGet_odSet_self _ _ _
      · have := writeAll_dim_to_name_not_mem t (frameWrite f p.1 p.2) p.2 h2
        unfold writeAll at this
        rw [this]
        exact odGet_odSet_self _ _ _
    · unfold writeAll
      rw [List.foldl_cons]
      exact ih (frameWrite f q.1 q.2) (List.nodup_cons.mp hn1).2
        (List.nodup_cons.mp hn2).2 p hp'

/-- In a well-formed frame the dims bound in `name_to_dim` are also
duplicate-free. -/
theorem frameWF_snd_nodup {f : StackFrame} (hwf : FrameWF f) :
    (f.name_to_dim.map Prod.snd).Nodup := by
  have hfst : (f.name_to_dim.map Prod.fst).Nodup := hwf.1
  have hl : f.name_to_dim.Nodup := hfst.of_map
  refine List.Nodup.map_on ?_ hl
  intro p hp q hq he
  have hp' : odGet f.name_to_dim p.1 = some p.2 :=
    mem_odGet_of_nodup hwf.1 (by rw [Prod.mk.eta]; exact hp)
  have hq' : odGet f.name_to_dim q.1 = some q.2 :=
    mem_odGet_of_nodup hwf.1 (by rw [Prod.mk.eta]; exact hq)
  have hinv := (frameInv_iff f).mp hwf.2.2
  have h1 := (hinv p.1 p.2).mp hp'
  have h2 := (hinv q.1 q.2).mp hq'
  rw [he] at h1
  have : p.1 = q.1 := Option.some.inj (h1.symm.trans h2)
  exact Prod.ext this he

/-! ## Drain / restore fold specifications -/

theorem drain_fold_spec (l : List (String × Int)) :
    ∀ (s : DimStack) (sv : List (String × Int)),
    (l.foldl (fun (acc : DimStack × List (String × Int)) p =>
        (acc.1.freeAt acc.1.globalId p.1 p.2, acc.2 ++ [p])) (s, sv)).2 = sv ++ l ∧
    (l.foldl (fun (acc : DimStack × List (String × Int)) p =>
        (acc.1.freeAt acc.1.globalId p.1 p.2, acc.2 ++ [p])) (s, sv)).1.stack = s.stack ∧
    (l.foldl (fun (acc : DimStack × List (String × Int)) p =>
        (acc.1.freeAt acc.1.globalId p.1 p.2, acc.2 ++ [p])) (s, sv)).1.outermost = s.outermost ∧
    (l.foldl (fun (acc : DimStack × List (String × Int)) p =>
        (acc.1.freeAt acc.1.globalId p.1 p.2, acc.2 ++ [p])) (s, sv)).1.next_id = s.next_id ∧
    (l.foldl (fun (acc : DimStack × List (String × Int)) p =>
        (acc.1.freeAt acc.1.globalId p.1 p.2, acc.2 ++ [p])) (s, sv)).1.getFrame s.globalId
      = freeAll (s.getFrame s.globalId) l ∧
    (∀ i, i ≠ s.globalId →
      (l.foldl (fun (acc : DimStack × List (String × Int)) p =>
          (acc.1.freeAt acc.1.globalId p.1 p.2, acc.2 ++ [p])) (s, sv)).1.getFrame i
        = s.getFrame i) := by
  induction l with
  | nil =>
    intro s sv
    refine ⟨by simp, rfl, rfl, rfl, rfl, fun i _ => rfl⟩
  | cons p t ih =>
    intro s sv
    rw [List.foldl_cons]
    have hgid : (s.freeAt s.globalId p.1 p.2).globalId = s.globalId := rfl
    obtain ⟨ih1, ih2, ih3, ih4, ih5, ih6⟩ := ih (s.freeAt s.globalId p.1 p.2) (sv ++ [p])
    refine ⟨by rw [ih1]; simp, by rw [ih2]; rfl, by rw [ih3]; rfl, by rw [ih4]; rfl, ?_, ?_⟩
    · rw [hgid] at ih5
      rw [ih5, getFrame_freeAt_self]
      rfl
    · intro i hi
      rw [hgid] at ih6
      rw [ih6 i hi, getFrame_freeAt_ne _ _ _ hi]

theorem restore_fold_spec (l : List (String × Int)) :
    ∀ s : DimStack,
    (l.foldl (fun t p => t.writeAt t.globalId p.1 p.2) s).stack = s.stack ∧
    (l.foldl (fun t p => t.writeAt t.globalId p.1 p.2) s).outermost = s.outermost ∧
    (l.foldl (fun t p => t.writeAt t.globalId p.1 p.2) s).next_id = s.next_id ∧
    (l.foldl (fun t p => t.writeAt t.globalId p.1 p.2) s).getFrame s.globalId
      = writeAll (s.getFrame s.globalId) l ∧
    (∀ i, i ≠ s.globalId →
      (l.foldl (fun t p => t.writeAt t.globalId p.1 p.2) s).getFrame i = s.getFrame i) ∧
    (∀ i, ((l.foldl (fun t p => t.writeAt t.globalId p.1 p.2) s).getFrame i).iter_parents
      = (s.getFrame i).iter_parents) := by
  induction l with
  | nil =>
    intro s
    exact ⟨rfl, rfl, rfl, rfl, fun i _ => rfl, fun i => rfl⟩
  | cons p t ih =>
    intro s
    rw [List.foldl_cons]
    have hgid : (s.writeAt s.globalId p.1 p.2).globalId = s.globalId := rfl
    obtain ⟨ih1, ih2, ih3, ih4, ih5, ih6⟩ := ih (s.writeAt s.globalId p.1 p.2)
    refine ⟨by rw [ih1]; rfl, by rw [ih2]; rfl, by rw [ih3]; rfl, ?_, ?_, ?_⟩
    · rw [hgid] at ih4
      rw [ih4, getFrame_writeAt_self]
      rfl
    · intro i hi
      rw [hgid] at ih5
      rw [ih5 i hi, getFrame_writeAt_ne _ _ _ hi]
    · intro i
      rw [ih6 i]
      by_cases hij : i = s.globalId
      · subst hij
        rw [getFrame_writeAt_self]
        rfl
      · rw [getFrame_writeAt_ne _ _ _ hij]

/-! ## Cleanup-messenger bookkeeping lemmas -/

theorem cleanupEnter_stack (s : DimStack) (m : DimStackCleanupMessenger) :
    (cleanupEnter s m).1.stack = s.stack := by
  unfold cleanupEnter
  by_cases h : m.ref_count = 0 ∧ s.outermost = none
  · simp only [if_pos h]
    exact (restore_fold_spec m.saved_dims _).1
  · simp only [if_neg h]

theorem cleanupEnter_next_id (s : DimStack) (m : DimStackCleanupMessenger) :
    (cleanupEnter s m).1.next_id = s.next_id := by
  unfold cleanupEnter
  by_cases h : m.ref_count = 0 ∧ s.outermost = none
  · simp only [if_pos h]
    exact (restore_fold_spec m.saved_dims _).2.2.1
  · simp only [if_neg h]

theorem cleanupExit_stack (s : DimStack) (m : DimStackCleanupMessenger) :
    (cleanupExit s m).1.stack = s.stack := by
  unfold cleanupExit
  by_cases h : m.ref_count = 1 ∧ s.outermost = some m.id
  · simp only [if_pos h]
    exact (drain_fold_spec _ _ _).2.1
  · simp only [if_neg h]

theorem cleanupExit_next_id (s : DimStack) (m : DimStackCleanupMessenger) :
    (cleanupExit s m).1.next_id = s.next_id := by
  unfold cleanupExit
  by_cases h : m.ref_count = 1 ∧ s.outermost = some m.id
  · simp only [if_pos h]
    exact (drain_fold_spec _ _ _).2.2.2.1
  · simp only [if_neg h]

/-! ## Claims -/

/-- Claim C1, counterexample.  On a fresh allocator with the default
(`-1`) boundary, the request `request(NameRequest(None, LOCAL), None)`
does not synthesize `"_pyro_dim_1"` with slot `-1`: `_gendim` builds
the display name from `-dim_request.dim` before searching for a slot,
and negating the request's `None` dim raises a `TypeError` — even
though slot `-1` is free (so the claimed success was possible). -/
theorem C1_counterexample :
    dimStackInit.request (.req ⟨none, DimType.LOCAL⟩) (.concrete none)
        = .error PyErr.typeError ∧
    (-1 : Int) ∉ dimStackInit.conflictDims := by
  decide

/-- Claim C1, amended.  On a fresh Allocator with the boundary at its
default, a request whose name side is `NameRequest(None, LOCAL)` and
whose slot side is `None` raises a `TypeError` during display-name
synthesis (the f-string negates the request's absent dim); no name or
slot is returned, the allocator state is unchanged, and a second
identical request in the same frame therefore raises the same
`TypeError`. -/
theorem C1_theorem :
    dimStackInit.request (.req ⟨none, DimType.LOCAL⟩) (.concrete none)
      = .error PyErr.typeError := by
  decide

/-- Claim C2, counterexample.  A GLOBAL request that misses, supplies
no slot and also supplies no name raises a `TypeError` from name
synthesis instead of returning the first free slot, although a
non-colliding slot above `MIN_SLOT` exists (the search would return
`-1`). -/
theorem C2_counterexample :
    dimStackInit.request (.req ⟨none, DimType.GLOBAL⟩) (.concrete none)
        = .error PyErr.typeError ∧
    MAX_DIM ≤ firstFree dimStackInit.conflictDims
      ((dimStackInit.first_available_dim).getD (-1)) := by
  decide

/-- Claim C2, amended.  For every LOCAL or GLOBAL request that misses
in its read set, supplies no slot, and supplies a name, the allocator
returns the first slot — starting from `first_free_slot` (or -1 when
the boundary is unset) and decrementing by 1 — that is absent from the
`slot_to_name` map of every conflict frame; and it raises the
allocation-exhausted error exactly when every candidate of that
descending search that is ≥ `MIN_SLOT` (-25) collides.  (The original
claim also covered nameless requests, which instead raise a
`TypeError`; see the counterexample.) -/
theorem C2_theorem : ∀ (s : DimStack) (x : String) (t : DimType),
    (t = DimType.LOCAL ∨ t = DimType.GLOBAL) →
    (DimStack.readLoop s (s.readFrames t) (some x) none).2.2 = false →
    (MAX_DIM ≤ firstFree s.conflictDims ((s.first_available_dim).getD (-1)) →
      ∃ s', s.requestCore (some x) none t =
          .ok (some x,
            some (firstFree s.conflictDims ((s.first_available_dim).getD (-1))),
            s') ∧
        firstFree s.conflictDims ((s.first_available_dim).getD (-1))
          ∉ s.conflictDims ∧
        firstFree s.conflictDims ((s.first_available_dim).getD (-1))
          ≤ (s.first_available_dim).getD (-1) ∧
        (∀ e, firstFree s.conflictDims ((s.first_available_dim).getD (-1)) < e →
          e ≤ (s.first_available_dim).getD (-1) → e ∈ s.conflictDims)) ∧
    (firstFree s.conflictDims ((s.first_available_dim).getD (-1)) < MAX_DIM →
      s.requestCore (some x) none t = .error (.valueError x)) ∧
    (firstFree s.conflictDims ((s.first_available_dim).getD (-1)) < MAX_DIM ↔
      ∀ e, MAX_DIM ≤ e → e ≤ (s.first_available_dim).getD (-1) →
        e ∈ s.conflictDims) := by
  intro s x t h1 hmiss
  have ht : t ≠ DimType.VISIBLE := by
    rcases h1 with rfl | rfl <;> exact fun hc => by cases hc
  have hmain := requestCore_miss hmiss
  rw [gendim_named_nodim s x t ht] at hmain
  refine ⟨?_, ?_, ?_⟩
  · intro hge
    rw [if_neg (by omega)] at hmain
    exact ⟨_, hmain, firstFree_not_mem _ _, firstFree_le _ _,
      fun e he1 he2 => firstFree_between _ _ e he1 he2⟩
  · intro hlt
    rw [if_pos hlt] at hmain
    exact hmain
  · constructor
    · intro hlt e he1 he2
      exact firstFree_between _ _ e (by omega) he2
    · intro hall
      by_contra hge
      push_neg at hge
      exact (firstFree_not_mem s.conflictDims ((s.first_available_dim).getD (-1)))
        (hall _ hge (firstFree_le _ _))

/-- Claim C2, witness: on a fresh allocator a LOCAL request for the
name "a" with no slot misses, the descending search starts and ends at
-1, and the request succeeds with slot -1. -/
theorem C2_witness :
    (DimStack.readLoop dimStackInit (dimStackInit.readFrames DimType.LOCAL)
        (some "a") none).2.2 = false ∧
    MAX_DIM ≤ firstFree dimStackInit.conflictDims
        ((dimStackInit.first_available_dim).getD (-1)) ∧
    (∃ s', dimStackInit.requestCore (some "a") none DimType.LOCAL =
        .ok (some "a",
          some (firstFree dimStackInit.conflictDims
            ((dimStackInit.first_available_dim).getD (-1))), s') ∧
      firstFree dimStackInit.conflictDims
        ((dimStackInit.first_available_dim).getD (-1)) ∉ dimStackInit.conflictDims ∧
      firstFree dimStackInit.conflictDims
        ((dimStackInit.first_available_dim).getD (-1))
        ≤ (dimStackInit.first_available_dim).getD (-1) ∧
      (∀ e, firstFree dimStackInit.conflictDims
          ((dimStackInit.first_available_dim).getD (-1)) < e →
        e ≤ (dimStackInit.first_available_dim).getD (-1) →
        e ∈ dimStackInit.conflictDims)) :=
  ⟨by decide, by decide,
    (C2_theorem dimStackInit "a" DimType.LOCAL (Or.inl rfl) (by decide)).1
      (by decide)⟩

/-- Claim C3, counterexample.  A VISIBLE request that misses, supplies
no slot and supplies no name, issued with the boundary at -2 and slot
-1 free, does not succeed with slot -1 as claimed: name synthesis
negates the request's `None` dim and raises a `TypeError` first. -/
theorem C3_counterexample :
    boundaryTwoStack.request (.req ⟨none, DimType.VISIBLE⟩) (.concrete none)
        = .error PyErr.typeError ∧
    (-1 : Int) ∉ boundaryTwoStack.conflictDims := by
  decide

/-- Claim C3, amended.  For every VISIBLE request that misses,
supplies no slot, and supplies a name, with the boundary set at -2:
the request fails with the allocation-exhausted error if slot -1 is
already bound in some conflict frame, and otherwise succeeds returning
slot -1.  (The original claim also covered nameless requests, which
instead raise a `TypeError`; see the counterexample.) -/
theorem C3_theorem : ∀ (s : DimStack) (x : String),
    s.first_available_dim = some (-2) →
    (DimStack.readLoop s (s.readFrames DimType.VISIBLE) (some x) none).2.2
      = false →
    ((-1 : Int) ∈ s.conflictDims →
      s.requestCore (some x) none DimType.VISIBLE = .error (.valueError x)) ∧
    ((-1 : Int) ∉ s.conflictDims →
      ∃ s', s.requestCore (some x) none DimType.VISIBLE
        = .ok (some x, some (-1), s')) := by
  intro s x hb hmiss
  have hmain := requestCore_miss hmiss
  rw [gendim_named_visible s x (-2) hb] at hmain
  constructor
  · intro hmem
    have h1 : firstFree s.conflictDims (-1) ≤ -1 := firstFree_le _ _
    have h2 : firstFree s.conflictDims (-1) ≠ -1 :=
      fun he => (firstFree_not_mem s.conflictDims (-1)) (he.symm ▸ hmem)
    have h3 : firstFree s.conflictDims (-1) ≤ -2 := by omega
    by_cases h4 : firstFree s.conflictDims (-1) < MAX_DIM
    · rw [if_pos h4] at hmain
      exact hmain
    · rw [if_neg h4, if_pos h3] at hmain
      exact hmain
  · intro hnm
    have h1 : firstFree s.conflictDims (-1) = -1 := by
      have hle := firstFree_le s.conflictDims (-1)
      by_contra hne
      exact hnm (firstFree_between _ _ (-1) (by omega) (le_refl _))
    rw [h1] at hmain
    rw [if_neg (by norm_num [MAX_DIM]), if_neg (by omega)] at hmain
    exact ⟨_, hmain⟩

/-- Claim C3, witness: with the boundary at -2 and slot -1 free on a
fresh allocator, the VISIBLE request for "i" succeeds with slot -1. -/
theorem C3_witness :
    boundaryTwoStack.first_available_dim = some (-2) ∧
    (DimStack.readLoop boundaryTwoStack
        (boundaryTwoStack.readFrames DimType.VISIBLE) (some "i") none).2.2
      = false ∧
    ∃ s', boundaryTwoStack.requestCore (some "i") none DimType.VISIBLE
      = .ok (some "i", some (-1), s') :=
  ⟨rfl, by decide,
    (C3_theorem boundaryTwoStack "i" rfl (by decide)).2 (by decide)⟩

/-- Claim C10.  For every request that misses with no name supplied
and a slot value carried in the request, the synthesized display name
is `_pyro_dim_` followed by the negation of the slot carried in the
request itself (the `DimRequest`'s `dim` field, computed before any
slot search), and the returned slot is that same requested slot. -/
theorem C10_theorem : ∀ (s : DimStack) (d : Int) (t : DimType)
    (n' : Option String) (d' : Option Int) (s' : DimStack),
    (DimStack.readLoop s (s.readFrames t) none (some d)).2.2 = false →
    s.request (.req ⟨none, t⟩) (.concrete (some d)) = .ok (n', d', s') →
    n' = some ("_pyro_dim_" ++ toString (-d)) ∧ d' = some d := by
  intro s d t n' d' s' hmiss hok
  rw [request_name_side, requestCore_miss hmiss] at hok
  cases hg : s.gendim ⟨none, t⟩ ⟨some d, t⟩ with
  | error e =>
    rw [hg] at hok
    exact absurd hok (by simp)
  | ok p =>
    obtain ⟨fn, fd⟩ := p
    rw [hg] at hok
    simp only [Except.ok.injEq, Prod.mk.injEq] at hok
    obtain ⟨hfn, hfd⟩ := gendim_ok_nameless hg
    exact ⟨hok.1.symm.trans (by rw [hfn]), hok.2.1.symm.trans (by rw [hfd])⟩

/-- Claim C10, witness: `request(NameRequest(None, LOCAL), -3)` on a
fresh allocator synthesizes the name `_pyro_dim_3` for slot -3. -/
theorem C10_witness :
    (DimStack.readLoop dimStackInit (dimStackInit.readFrames DimType.LOCAL)
        none (some (-3))).2.2 = false ∧
    (some "_pyro_dim_3" = some ("_pyro_dim_" ++ toString (-(-3) : Int)) ∧
      (some (-3) : Option Int) = some (-3)) :=
  ⟨by decide,
    C10_theorem dimStackInit (-3) DimType.LOCAL (some "_pyro_dim_3")
      (some (-3)) dim3State (by decide) (by decide)⟩

/-! ## Read-set / write-set / conflict-set relations -/

theorem writeFrames_subset_readFrames (s : DimStack) (t : DimType) :
    ∀ i ∈ s.writeFrames t, i ∈ s.readFrames t := by
  intro i hi
  unfold DimStack.writeFrames at hi
  unfold DimStack.readFrames
  by_cases ht : t ≠ DimType.LOCAL
  · rw [if_pos ht] at hi
    rw [if_pos ht]
    exact hi
  · rw [if_neg ht] at hi
    rw [if_neg ht]
    rcases List.mem_cons.mp hi with rfl | hi'
    · exact List.mem_cons_self _ _
    · refine List.mem_cons_of_mem _ ?_
      rw [List.append_assoc]
      refine List.mem_append_left _ ?_
      by_cases hk : s.current_frame.keep
      · rw [if_pos hk] at hi'
        exact hi'
      · rw [if_neg hk] at hi'
        simp at hi'

theorem writeFrames_subset_conflictIds (s : DimStack) (t : DimType) :
    ∀ i ∈ s.writeFrames t, i ∈ s.conflictIds := by
  intro i hi
  unfold DimStack.writeFrames at hi
  unfold DimStack.conflictIds
  by_cases ht : t ≠ DimType.LOCAL
  · rw [if_pos ht] at hi
    rcases List.mem_cons.mp hi with rfl | hi'
    · exact List.mem_cons_of_mem _ (List.mem_cons_self _ _)
    · simp at hi'
  · rw [if_neg ht] at hi
    rcases List.mem_cons.mp hi with rfl | hi'
    · exact List.mem_cons_self _ _
    · refine List.mem_cons_of_mem _ (List.mem_cons_of_mem _ ?_)
      refine List.mem_append_left _ ?_
      by_cases hk : s.current_frame.keep
      · rw [if_pos hk] at hi'
        exact hi'
      · rw [if_neg hk] at hi'
        simp at hi'

/-- On a read miss with a supplied name, the name is absent from the
`name_to_dim` map of that frame. -/
theorem frameRead_false_name {f : StackFrame} {x : String} {dm : Option Int}
    (h : (frameRead f (some x) dm).2.2 = false) :
    odGet f.name_to_dim x = none := by
  cases hv : odGet f.name_to_dim x with
  | none => rfl
  | some w =>
    exfalso
    cases dm with
    | none => simp [frameRead, hv] at h
    | some y => simp [frameRead, hv] at h

/-- A dim absent from the conflict set is absent from every conflict
frame's `dim_to_name` map. -/
theorem conflictDims_lookup_none {s : DimStack} {d : Int}
    (h : d ∉ s.conflictDims) {i : Nat} (hi : i ∈ s.conflictIds) :
    odGet (s.getFrame i).dim_to_name d = none := by
  cases hv : odGet (s.getFrame i).dim_to_name d with
  | none => rfl
  | some n =>
    exfalso
    refine h (mem_catMap.mpr ⟨i, hi, ?_⟩)
    exact odGet_mem_keys hv

/-- Claim C5.  When a request misses and a fresh binding is
synthesized, the binding is stored exactly into the write set —
the global frame alone for GLOBAL/VISIBLE, and for LOCAL the current
frame plus (iff the current frame's `keep` flag is set) every parent
frame of the current frame; every other frame in the store, and the
frame stack itself, are unchanged. -/
theorem C5_theorem : ∀ (s : DimStack) (nm : Option String) (dm : Option Int)
    (t : DimType) (n' : Option String) (d' : Option Int) (s' : DimStack),
    (DimStack.readLoop s (s.readFrames t) nm dm).2.2 = false →
    s.requestCore nm dm t = .ok (n', d', s') →
    ∃ fn fd, n' = some fn ∧ d' = some fd ∧
      (∀ i, i ∉ s.writeFrames t → s'.getFrame i = s.getFrame i) ∧
      (∀ i ∈ s.writeFrames t,
        odGet (s'.getFrame i).name_to_dim fn = some fd ∧
        odGet (s'.getFrame i).dim_to_name fd = some fn) ∧
      s.writeFrames t = (if t = DimType.LOCAL
        then s.currentId ::
          (if s.current_frame.keep then s.current_frame.parents else [])
        else [s.globalId]) ∧
      s'.stack = s.stack := by
  intro s nm dm t n' d' s' hmiss hok
  rw [requestCore_miss hmiss] at hok
  cases hg : s.gendim ⟨nm, t⟩ ⟨dm, t⟩ with
  | error e =>
    rw [hg] at hok
    exact absurd hok (by simp)
  | ok p =>
    obtain ⟨fn, fd⟩ := p
    rw [hg] at hok
    simp only [Except.ok.injEq, Prod.mk.injEq] at hok
    refine ⟨fn, fd, hok.1.symm, hok.2.1.symm, ?_, ?_, ?_, ?_⟩
    · intro i hni
      rw [← hok.2.2]
      exact foldl_writeAt_getFrame_not_mem hni
    · intro i hmem
      rw [← hok.2.2]
      exact foldl_writeAt_getFrame_mem hmem
    · unfold DimStack.writeFrames
      cases t <;> rfl
    · rw [← hok.2.2]
      exact foldl_writeAt_stack _ _ _ _

/-- Claim C5, witness: the fresh LOCAL binding ("a", -1) on a fresh
allocator is written exactly into the single (global = current) frame
of the stack. -/
theorem C5_witness :
    (DimStack.readLoop dimStackInit (dimStackInit.readFrames DimType.LOCAL)
        (some "a") none).2.2 = false ∧
    (∃ fn fd, (some "a" : Option String) = some fn ∧
      (some (-1) : Option Int) = some fd ∧
      (∀ i, i ∉ dimStackInit.writeFrames DimType.LOCAL →
        aState.getFrame i = dimStackInit.getFrame i) ∧
      (∀ i ∈ dimStackInit.writeFrames DimType.LOCAL,
        odGet (aState.getFrame i).name_to_dim fn = some fd ∧
        odGet (aState.getFrame i).dim_to_name fd = some fn) ∧
      dimStackInit.writeFrames DimType.LOCAL = (if DimType.LOCAL = DimType.LOCAL
        then dimStackInit.currentId ::
          (if dimStackInit.current_frame.keep
           then dimStackInit.current_frame.parents else [])
        else [dimStackInit.globalId]) ∧
      aState.stack = dimStackInit.stack) :=
  ⟨by decide,
    C5_theorem dimStackInit (some "a") none DimType.LOCAL (some "a")
      (some (-1)) aState (by decide) (by decide)⟩

/-- Claim C7, counterexample.  The invariant fails for a sequence of
two `Allocator.request` operations alone: binding the user-supplied
name `_pyro_dim_5` to slot -1 and then issuing a nameless LOCAL
request for slot -5 synthesizes the same display name `_pyro_dim_5`,
overwrites its `name_to_dim` entry, and leaves `dim_to_name` with two
slots (-1 and -5) both resolving to `_pyro_dim_5`: the two maps of the
global frame are no longer mutual inverses. -/
theorem C7_counterexample :
    StoreInv dimStackInit ∧
    dimStackInit.requestCore (some "_pyro_dim_5") none DimType.LOCAL
      = .ok (some "_pyro_dim_5", some (-1), collide1) ∧
    collide1.requestCore none (some (-5)) DimType.LOCAL
      = .ok (some "_pyro_dim_5", some (-5), collide2) ∧
    ¬ FrameInv (collide2.getFrame collide2.globalId) := by
  decide

theorem ConflictUnique_lookup {s : DimStack} (h : ConflictUnique s)
    {i j : Nat} (hi : i ∈ s.conflictIds) (hj : j ∈ s.conflictIds)
    {n1 n2 : String} {d : Int}
    (h1 : odGet (s.getFrame i).name_to_dim n1 = some d)
    (h2 : odGet (s.getFrame j).name_to_dim n2 = some d) : n1 = n2 :=
  h i hi j hj (n1, d) (odGet_some_mem h1) (n2, d) (odGet_some_mem h2) h1 h2 rfl

theorem foldl_writeAt_n2d_get_ne {x : String} {n : String} (hn : n ≠ x)
    {d : Int} (ws : List Nat) : ∀ (s : DimStack) (i : Nat),
    odGet (((ws.foldl (fun t j => t.writeAt j x d) s)).getFrame i).name_to_dim n
      = odGet (s.getFrame i).name_to_dim n := by
  induction ws with
  | nil => intro s i; rfl
  | cons j t ih =>
    intro s i
    rw [List.foldl_cons, ih]
    by_cases hij : i = j
    · subst hij
      rw [getFrame_writeAt_self]
      show odGet (odSet (s.getFrame i).name_to_dim x d) n = _
      exact odGet_odSet_ne _ _ _ _ hn
    · rw [getFrame_writeAt_ne _ _ _ hij]

theorem foldl_writeAt_frame_fields (ws : List Nat) (x : String) (d : Int) :
    ∀ (s : DimStack) (i : Nat),
    (((ws.foldl (fun t j => t.writeAt j x d) s)).getFrame i).parents
      = (s.getFrame i).parents ∧
    (((ws.foldl (fun t j => t.writeAt j x d) s)).getFrame i).iter_parents
      = (s.getFrame i).iter_parents := by
  induction ws with
  | nil => intro s i; exact ⟨rfl, rfl⟩
  | cons j t ih =>
    intro s i
    rw [List.foldl_cons]
    obtain ⟨h1, h2⟩ := ih (s.writeAt j x d) i
    rw [h1, h2]
    by_cases hij : i = j
    · subst hij
      rw [getFrame_writeAt_self]
      exact ⟨rfl, rfl⟩
    · rw [getFrame_writeAt_ne _ _ _ hij]
      exact ⟨rfl, rfl⟩

theorem conflictIds_foldl_writeAt (ws : List Nat) (x : String) (d : Int)
    (s : DimStack) :
    ((ws.foldl (fun t j => t.writeAt j x d) s)).conflictIds = s.conflictIds := by
  have hstack := foldl_writeAt_stack ws s x d
  have hcur : ((ws.foldl (fun t j => t.writeAt j x d) s)).currentId
      = s.currentId := congrArg (fun l => l.getLastD 0) hstack
  have hglob : ((ws.foldl (fun t j => t.writeAt j x d) s)).globalId
      = s.globalId := congrArg (fun l => l.headD 0) hstack
  unfold DimStack.conflictIds DimStack.current_frame
  rw [hcur, hglob]
  obtain ⟨hp, hq⟩ := foldl_writeAt_frame_fields ws x d s s.currentId
  rw [hp, hq]

/-- Claim C7, amended.  Within every single Frame, `name_to_dim` and
`dim_to_name` remain mutual inverses after every `Allocator.request`
that supplies a name (and after `Frame.write`/`Frame.free` calls
respecting the no-collision precondition the spec already states for
them); and across the full conflict set no two distinct live names
ever resolve to the same slot after every `Allocator.request`,
nameless requests included — a successful synthesis always validates
its slot against every conflict frame.  Only the per-frame
mutual-inverse conjunct needs the name restriction: a nameless request
can synthesize a display name that collides with an existing binding
and break it (see the counterexample), while the cross-set slot
uniqueness survives even that overwrite. -/
theorem C7_theorem : ∀ (s : DimStack) (nm : Option String) (dm : Option Int)
    (t : DimType) (n' : Option String) (d' : Option Int) (s' : DimStack),
    StoreInv s →
    ConflictUnique s →
    s.requestCore nm dm t = .ok (n', d', s') →
    ConflictUnique s' ∧ (∀ x, nm = some x → StoreInv s') := by
  intro s nm dm t n' d' s' hinv hcu hok
  by_cases hfound : (DimStack.readLoop s (s.readFrames t) nm dm).2.2 = true
  · rw [requestCore_found hfound] at hok
    simp only [Except.ok.injEq, Prod.mk.injEq] at hok
    obtain ⟨-, -, hs⟩ := hok
    subst hs
    exact ⟨hcu, fun _ _ => hinv⟩
  · have hmiss : (DimStack.readLoop s (s.readFrames t) nm dm).2.2 = false := by
      simpa using hfound
    obtain ⟨-, hall⟩ := readLoop_not_found hmiss
    rw [requestCore_miss hmiss] at hok
    cases hg : s.gendim ⟨nm, t⟩ ⟨dm, t⟩ with
    | error e =>
      rw [hg] at hok
      exact absurd hok (by simp)
    | ok p =>
      obtain ⟨fn, fd⟩ := p
      rw [hg] at hok
      simp only [Except.ok.injEq, Prod.mk.injEq] at hok
      obtain ⟨-, -, hs⟩ := hok
      subst hs
      obtain ⟨hnoc, hname⟩ := gendim_ok_facts hg
      constructor
      · -- cross-conflict-set uniqueness, for any request
        have hcids := conflictIds_foldl_writeAt (s.writeFrames t) fn fd s
        have hchar : ∀ (i : Nat) (nn : String) (dd : Int),
            odGet (((s.writeFrames t).foldl (fun u i => u.writeAt i fn fd)
                s).getFrame i).name_to_dim nn = some dd →
            (nn = fn ∧ dd = fd) ∨
              odGet (s.getFrame i).name_to_dim nn = some dd := by
          intro i0 nn dd hgd
          by_cases hnn : nn = fn
          · by_cases hiw : i0 ∈ s.writeFrames t
            · left
              refine ⟨hnn, ?_⟩
              have hm : odGet (((s.writeFrames t).foldl
                  (fun u i => u.writeAt i fn fd) s).getFrame i0).name_to_dim fn
                  = some fd := (foldl_writeAt_getFrame_mem hiw).1
              rw [hnn] at hgd
              exact Option.some.inj (hgd.symm.trans hm)
            · right
              rw [← foldl_writeAt_getFrame_not_mem hiw]
              exact hgd
          · right
            rw [← foldl_writeAt_n2d_get_ne hnn (s.writeFrames t) s i0]
            exact hgd
        intro i hi j hj p hp q hq hgp hgq heq
        rw [hcids] at hi hj
        rcases hchar i p.1 p.2 hgp with ⟨hp1, hp2⟩ | hop
        · rcases hchar j q.1 q.2 hgq with ⟨hq1, hq2⟩ | hoq
          · rw [hp1, hq1]
          · exfalso
            have hfdq : odGet (s.getFrame j).name_to_dim q.1 = some fd := by
              rw [hoq, ← heq, hp2]
            have hinvj : odGet (s.getFrame j).dim_to_name fd = some q.1 :=
              ((frameInv_iff _).mp (hinv.getFrame j) q.1 fd).mp hfdq
            exact hnoc (mem_catMap.mpr ⟨j, hj, odGet_mem_keys hinvj⟩)
        · rcases hchar j q.1 q.2 hgq with ⟨hq1, hq2⟩ | hoq
          · exfalso
            have hfdp : odGet (s.getFrame i).name_to_dim p.1 = some fd := by
              rw [heq, hq2] at hop
              exact hop
            have hinvi : odGet (s.getFrame i).dim_to_name fd = some p.1 :=
              ((frameInv_iff _).mp (hinv.getFrame i) p.1 fd).mp hfdp
            exact hnoc (mem_catMap.mpr ⟨i, hi, odGet_mem_keys hinvi⟩)
          · rw [heq] at hop
            exact ConflictUnique_lookup hcu hi hj hop hoq
      · -- per-frame mutual inverses, for name-supplying requests
        intro x hx
        subst hx
        have hfnx : fn = x := hname x rfl
        subst hfnx
        refine foldl_writeAt_storeInv hinv ?_
        intro i hi
        left
        constructor
        · exact frameRead_false_name
            (hall i (writeFrames_subset_readFrames s t i hi))
        · exact conflictDims_lookup_none hnoc
            (writeFrames_subset_conflictIds s t i hi)

/-- Claim C7, witness: a fresh allocator satisfies both invariants,
and the LOCAL request binding ("a", -1) preserves them. -/
theorem C7_witness :
    StoreInv dimStackInit ∧
    ConflictUnique dimStackInit ∧
    dimStackInit.requestCore (some "a") none DimType.LOCAL
      = .ok (some "a", some (-1), aState2) ∧
    (ConflictUnique aState2 ∧
      (∀ x, (some "a" : Option String) = some x → StoreInv aState2)) :=
  ⟨by decide, by decide, by decide,
    C7_theorem dimStackInit (some "a") none DimType.LOCAL (some "a")
      (some (-1)) aState2 (by decide) (by decide) (by decide)⟩

/-- Claim C8, counterexample.  A re-entrant enter is not a no-op on
the frame stack: entering the same `LocalNamedMessenger` a second time
(ref-count already 1) pushes another frame, because
`LocalNamedMessenger.__enter__` pushes unconditionally before
delegating to the ref-counted base class. -/
theorem C8_counterexample :
    (LocalNamedMessenger.enter dimStackInit freshLocalMsgr).2.ref_count = 1 ∧
    (LocalNamedMessenger.enter
        (LocalNamedMessenger.enter dimStackInit freshLocalMsgr).1
        (LocalNamedMessenger.enter dimStackInit freshLocalMsgr).2).1.stack
      ≠ (LocalNamedMessenger.enter dimStackInit freshLocalMsgr).1.stack := by
  decide

/-- Claim C8, amended.  Every enter of a `LocalNamedMessenger` pushes
exactly one frame and every successful exit pops exactly one frame,
regardless of the ref-count; the ref-count transitions 0→1 and 1→0
gate only the global-frame restore/drain side effects, and the bare
cleanup controller's enter/exit never touch the frame stack at all. -/
theorem C8_theorem :
    (∀ (s : DimStack) (m : LocalNamedMessenger),
      (LocalNamedMessenger.enter s m).1.stack.length = s.stack.length + 1) ∧
    (∀ (s : DimStack) (m : LocalNamedMessenger) (s' : DimStack)
        (m' : LocalNamedMessenger),
      LocalNamedMessenger.exit s m = .ok (s', m') →
      s'.stack.length + 1 = s.stack.length) ∧
    (∀ (s : DimStack) (m : DimStackCleanupMessenger),
      (cleanupEnter s m).1.stack = s.stack ∧
      (cleanupExit s m).1.stack = s.stack) := by
  refine ⟨?_, ?_, fun s m => ⟨cleanupEnter_stack s m, cleanupExit_stack s m⟩⟩
  · intro s m
    simp only [LocalNamedMessenger.enter]
    rw [cleanupEnter_stack]
    simp [DimStack.pushFrame]
  · intro s m s' m' hok
    simp only [LocalNamedMessenger.exit] at hok
    by_cases hlen : s.stack.length > 1
    · rw [if_pos hlen] at hok
      simp only [Except.ok.injEq, Prod.mk.injEq] at hok
      have hs : s'.stack = s.stack.dropLast := by
        rw [← hok.1, cleanupExit_stack]
      rw [hs, List.length_dropLast]
      omega
    · rw [if_neg hlen] at hok
      exact absurd hok (by simp)

/-- Claim C8, witness: exiting the single-entry controller pops the
one frame its enter pushed. -/
theorem C8_witness :
    LocalNamedMessenger.exit enteredState enteredMsgr
      = .ok (exitedState, exitedMsgr) ∧
    exitedState.stack.length + 1 = enteredState.stack.length :=
  ⟨by decide,
    C8_theorem.2.1 enteredState enteredMsgr exitedState exitedMsgr (by decide)⟩

/-! ## Cleanup enter/exit characterizations for the owning instance -/

/-- `cleanupExit` on the 1→0 transition of the current owner: drain
the global frame into `saved_dims`. -/
theorem cleanupExit_go {s : DimStack} {m : DimStackCleanupMessenger}
    (h1 : m.ref_count = 1) (h2 : s.outermost = some m.id) :
    cleanupExit s m =
      ((((s.getFrame s.globalId).name_to_dim.reverse).foldl
          (fun (acc : DimStack × List (String × Int)) p =>
            (acc.1.freeAt acc.1.globalId p.1 p.2, acc.2 ++ [p]))
          ({ s with outermost := none }, m.saved_dims)).1,
       ⟨m.id, 0,
        (((s.getFrame s.globalId).name_to_dim.reverse).foldl
          (fun (acc : DimStack × List (String × Int)) p =>
            (acc.1.freeAt acc.1.globalId p.1 p.2, acc.2 ++ [p]))
          ({ s with outermost := none }, m.saved_dims)).2⟩) := by
  rcases m with ⟨mid, mrc, msd⟩
  simp only at h1 h2
  subst h1
  simp only [cleanupExit]
  rw [if_pos ⟨trivial, h2⟩, if_pos ⟨trivial, h2⟩]
  rfl

/-- `cleanupEnter` on the 0→1 transition with no current owner:
acquire ownership and restore the saved bindings. -/
theorem cleanupEnter_go {s : DimStack} {m : DimStackCleanupMessenger}
    (h1 : m.ref_count = 0) (h2 : s.outermost = none) :
    cleanupEnter s m =
      (m.saved_dims.foldl (fun t p => t.writeAt t.globalId p.1 p.2)
        { s with outermost := some m.id },
       ⟨m.id, 1, []⟩) := by
  rcases m with ⟨mid, mrc, msd⟩
  simp only at h1 h2
  subst h1
  simp only [cleanupEnter]
  rw [if_pos ⟨trivial, h2⟩, if_pos ⟨trivial, h2⟩]
  rfl

/-! ## Draining every binding empties the frame -/

theorem freeAll_self_name_to_dim (f : StackFrame) (l : List (String × Int))
    (hsub : ∀ p ∈ f.name_to_dim, p ∈ l) :
    (freeAll f l).name_to_dim = [] := by
  apply odGet_all_none_nil
  intro k
  rw [freeAll_name_to_dim, odGet_popFold Prod.fst]
  by_cases hk : k ∈ l.map Prod.fst
  · rw [if_pos hk]
  · rw [if_neg hk]
    cases hv : odGet f.name_to_dim k with
    | none => rfl
    | some v =>
      exact absurd
        (List.mem_map_of_mem Prod.fst (hsub (k, v) (odGet_some_mem hv))) hk

theorem freeAll_self_dim_to_name (f : StackFrame) (l : List (String × Int))
    (hinv : FrameInv f) (hsub : ∀ p ∈ f.name_to_dim, p ∈ l) :
    (freeAll f l).dim_to_name = [] := by
  apply odGet_all_none_nil
  intro d
  rw [freeAll_dim_to_name, odGet_popFold Prod.snd]
  by_cases hd : d ∈ l.map Prod.snd
  · rw [if_pos hd]
  · rw [if_neg hd]
    cases hv : odGet f.dim_to_name d with
    | none => rfl
    | some n =>
      exfalso
      have h1 : odGet f.name_to_dim n = some d :=
        ((frameInv_iff f).mp hinv n d).mpr hv
      exact hd (List.mem_map_of_mem Prod.snd (hsub _ (odGet_some_mem h1)))

/-- Claim C4.  When the owning cleanup controller exits its last
nesting level (ref-count 1→0), every binding remaining in the global
frame is freed (both maps end empty), the freed pairs are saved in
reverse insertion order, ownership is released; and on the next entry
that acquires ownership (ref-count 0→1 with no current owner) the
saved pairs are all written back into the global frame and the saved
set is cleared. -/
theorem C4_theorem : ∀ (s : DimStack) (m : DimStackCleanupMessenger),
    m.ref_count = 1 → s.outermost = some m.id → m.saved_dims = [] →
    FrameWF (s.getFrame s.globalId) →
    ((cleanupExit s m).1.getFrame s.globalId).name_to_dim = [] ∧
    ((cleanupExit s m).1.getFrame s.globalId).dim_to_name = [] ∧
    (cleanupExit s m).2.saved_dims
      = (s.getFrame s.globalId).name_to_dim.reverse ∧
    (cleanupExit s m).2.ref_count = 0 ∧
    (cleanupExit s m).1.outermost = none ∧
    (cleanupEnter (cleanupExit s m).1 (cleanupExit s m).2).2.saved_dims = [] ∧
    (∀ p ∈ (cleanupExit s m).2.saved_dims,
      odGet ((cleanupEnter (cleanupExit s m).1 (cleanupExit s m).2).1.getFrame
        s.globalId).name_to_dim p.1 = some p.2 ∧
      odGet ((cleanupEnter (cleanupExit s m).1 (cleanupExit s m).2).1.getFrame
        s.globalId).dim_to_name p.2 = some p.1) := by
  intro s m h1 h2 h3 hwf
  obtain ⟨hd1, hd2, hd3, hd4, hd5, hd6⟩ :=
    drain_fold_spec ((s.getFrame s.globalId).name_to_dim.reverse)
      { s with outermost := none } m.saved_dims
  have e1 : ({ s with outermost := none } : DimStack).globalId = s.globalId :=
    rfl
  have e2 : ({ s with outermost := none } : DimStack).getFrame s.globalId
      = s.getFrame s.globalId := rfl
  have e3 : ({ s with outermost := none } : DimStack).stack = s.stack := rfl
  have e4 : ({ s with outermost := none } : DimStack).outermost
      = (none : Option Nat) := rfl
  rw [e1] at hd5 hd6
  rw [e2] at hd5
  rw [e3] at hd2
  rw [e4] at hd3
  have hsaved :
      (((s.getFrame s.globalId).name_to_dim.reverse).foldl
        (fun (acc : DimStack × List (String × Int)) p =>
          (acc.1.freeAt acc.1.globalId p.1 p.2, acc.2 ++ [p]))
        ({ s with outermost := none }, m.saved_dims)).2
      = (s.getFrame s.globalId).name_to_dim.reverse := by
    rw [hd1, h3, List.nil_append]
  rw [cleanupExit_go h1 h2]
  dsimp only
  refine ⟨?_, ?_, hsaved, rfl, hd3, ?_, ?_⟩
  · rw [hd5]
    exact freeAll_self_name_to_dim _ _ (fun p hp => List.mem_reverse.mpr hp)
  · rw [hd5]
    exact freeAll_self_dim_to_name _ _ hwf.2.2 (fun p hp => List.mem_reverse.mpr hp)
  · rw [cleanupEnter_go rfl hd3]
  · intro p hp
    rw [hsaved] at hp
    rw [cleanupEnter_go rfl hd3]
    dsimp only
    obtain ⟨-, -, -, hr4, -, -⟩ :=
      restore_fold_spec
        ((((s.getFrame s.globalId).name_to_dim.reverse).foldl
          (fun (acc : DimStack × List (String × Int)) p =>
            (acc.1.freeAt acc.1.globalId p.1 p.2, acc.2 ++ [p]))
          ({ s with outermost := none }, m.saved_dims)).2)
        { (((s.getFrame s.globalId).name_to_dim.reverse).foldl
            (fun (acc : DimStack × List (String × Int)) p =>
              (acc.1.freeAt acc.1.globalId p.1 p.2, acc.2 ++ [p]))
            ({ s with outermost := none }, m.saved_dims)).1
          with outermost := some m.id }
    have hfg :
        ({ (((s.getFrame s.globalId).name_to_dim.reverse).foldl
            (fun (acc : DimStack × List (String × Int)) p =>
              (acc.1.freeAt acc.1.globalId p.1 p.2, acc.2 ++ [p]))
            ({ s with outermost := none }, m.saved_dims)).1
          with outermost := some m.id } : DimStack).globalId = s.globalId :=
      congrArg (fun l : List Nat => l.headD 0) hd2
    rw [hfg] at hr4
    rw [hr4, hsaved]
    have hn1 : (((s.getFrame s.globalId).name_to_dim.reverse).map
        Prod.fst).Nodup := by
      rw [List.map_reverse]
      exact List.nodup_reverse.mpr hwf.1
    have hn2 : (((s.getFrame s.globalId).name_to_dim.reverse).map
        Prod.snd).Nodup := by
      rw [List.map_reverse]
      exact List.nodup_reverse.mpr (frameWF_snd_nodup hwf)
    exact writeAll_present _ _ hn1 hn2 p hp

/-- Claim C4, witness: draining a global frame holding
`a → -1, b → -2` empties it, saves `[(b,-2), (a,-1)]`, and the next
owning entry restores both bindings and clears the saved set. -/
theorem C4_witness :
    ownerMsgr.ref_count = 1 ∧
    ownedGlobalState.outermost = some ownerMsgr.id ∧
    FrameWF (ownedGlobalState.getFrame ownedGlobalState.globalId) ∧
    (((cleanupExit ownedGlobalState ownerMsgr).1.getFrame
        ownedGlobalState.globalId).name_to_dim = [] ∧
     ((cleanupExit ownedGlobalState ownerMsgr).1.getFrame
        ownedGlobalState.globalId).dim_to_name = [] ∧
     (cleanupExit ownedGlobalState ownerMsgr).2.saved_dims
       = (ownedGlobalState.getFrame
           ownedGlobalState.globalId).name_to_dim.reverse ∧
     (cleanupExit ownedGlobalState ownerMsgr).2.ref_count = 0 ∧
     (cleanupExit ownedGlobalState ownerMsgr).1.outermost = none ∧
     (cleanupEnter (cleanupExit ownedGlobalState ownerMsgr).1
        (cleanupExit ownedGlobalState ownerMsgr).2).2.saved_dims = [] ∧
     (∀ p ∈ (cleanupExit ownedGlobalState ownerMsgr).2.saved_dims,
       odGet ((cleanupEnter (cleanupExit ownedGlobalState ownerMsgr).1
         (cleanupExit ownedGlobalState ownerMsgr).2).1.getFrame
           ownedGlobalState.globalId).name_to_dim p.1 = some p.2 ∧
       odGet ((cleanupEnter (cleanupExit ownedGlobalState ownerMsgr).1
         (cleanupExit ownedGlobalState ownerMsgr).2).1.getFrame
           ownedGlobalState.globalId).dim_to_name p.2 = some p.1)) :=
  ⟨rfl, rfl, by decide,
    C4_theorem ownedGlobalState ownerMsgr rfl rfl rfl (by decide)⟩

/-! ## Local messenger enter/exit characterizations -/

theorem cleanupEnter_getFrame_ne (s : DimStack) (m : DimStackCleanupMessenger)
    {i : Nat} (hi : i ≠ s.globalId) :
    (cleanupEnter s m).1.getFrame i = s.getFrame i := by
  unfold cleanupEnter
  by_cases h : m.ref_count = 0 ∧ s.outermost = none
  · simp only [if_pos h]
    exact (restore_fold_spec m.saved_dims { s with outermost := some m.id }).2.2.2.2.1 i hi
  · simp only [if_neg h]

theorem cleanupEnter_getFrame_iter (s : DimStack) (m : DimStackCleanupMessenger)
    (i : Nat) :
    ((cleanupEnter s m).1.getFrame i).iter_parents
      = (s.getFrame i).iter_parents := by
  unfold cleanupEnter
  by_cases h : m.ref_count = 0 ∧ s.outermost = none
  · simp only [if_pos h]
    exact (restore_fold_spec m.saved_dims { s with outermost := some m.id }).2.2.2.2.2 i
  · simp only [if_neg h]

/-- The essential effect of `LocalNamedMessenger.__enter__` on the
allocator: one frame is pushed, with id `s.next_id`, becoming current;
its maps are the replayed saved maps (when `keep` and some are saved)
or empty, its `parents` the reversed top-`history` slice, its
`iter_parents` the controller's recorded chain. -/
theorem enter_spec (s : DimStack) (m : LocalNamedMessenger)
    (hg : s.stack ≠ []) (hfresh : s.stack.headD 0 < s.next_id) :
    (LocalNamedMessenger.enter s m).1.stack = s.stack ++ [s.next_id] ∧
    (LocalNamedMessenger.enter s m).1.currentId = s.next_id ∧
    (LocalNamedMessenger.enter s m).1.getFrame s.next_id
      = LocalNamedMessenger.enterFrame s m := by
  have hstack : (LocalNamedMessenger.enter s m).1.stack
      = s.stack ++ [s.next_id] := by
    simp only [LocalNamedMessenger.enter]
    rw [cleanupEnter_stack]
    rfl
  refine ⟨hstack, ?_, ?_⟩
  · show (LocalNamedMessenger.enter s m).1.stack.getLastD 0 = s.next_id
    rw [hstack]
    exact getLastD_concat _ _ _
  · have hne : s.next_id
        ≠ (s.pushFrame (LocalNamedMessenger.enterFrame s m)).globalId := by
      show s.next_id ≠ (s.stack ++ [s.next_id]).headD 0
      rw [headD_append_left _ _ _ hg]
      omega
    simp only [LocalNamedMessenger.enter]
    rw [cleanupEnter_getFrame_ne _ _ hne]
    show ((odGet (odSet s.store s.next_id (LocalNamedMessenger.enterFrame s m))
        s.next_id).getD emptyFrame) = _
    rw [odGet_odSet_self]
    rfl

/-- The essential effect of `LocalNamedMessenger.__exit__` for a
`keep=True` controller whose frame is on top: the frame is popped and
its maps saved (with parent references dropped) at the end of
`saved_frames`. -/
theorem exit_keep {s : DimStack} {m : LocalNamedMessenger}
    (hlen : s.stack.length > 1) (hk : m.keep = true) :
    LocalNamedMessenger.exit s m =
      .ok ((cleanupExit { s with stack := s.stack.dropLast }
              ⟨m.id, m.ref_count, m.saved_dims⟩).1,
           ⟨m.id, m.history, m.keep,
            m.saved_frames ++
              [⟨(s.getFrame s.currentId).name_to_dim,
                (s.getFrame s.currentId).dim_to_name, [], [], m.keep⟩],
            m.iter_parents,
            (cleanupExit { s with stack := s.stack.dropLast }
              ⟨m.id, m.ref_count, m.saved_dims⟩).2.ref_count,
            (cleanupExit { s with stack := s.stack.dropLast }
              ⟨m.id, m.ref_count, m.saved_dims⟩).2.saved_dims⟩) := by
  simp only [LocalNamedMessenger.exit]
  rw [if_pos hlen, if_pos hk]
  rfl

/-- A LOCAL request whose name is bound in the current frame resolves
there at once, without touching the state. -/
theorem requestCore_current_hit {s : DimStack} {x : String} {d : Int}
    (h : odGet (s.getFrame s.currentId).name_to_dim x = some d) :
    s.requestCore (some x) none DimType.LOCAL = .ok (some x, some d, s) := by
  have hfr : frameRead (s.getFrame s.currentId) (some x) none
      = (some x, some d, true) := by
    simp [frameRead, h]
  have hrf : s.readFrames DimType.LOCAL
      = s.currentId :: (s.current_frame.parents
          ++ s.current_frame.iter_parents ++ [s.globalId]) := by
    unfold DimStack.readFrames
    rw [if_neg (fun hc => hc rfl)]
  have hloop : DimStack.readLoop s (s.readFrames DimType.LOCAL) (some x) none
      = (some x, some d, true) := by
    rw [hrf, DimStack.readLoop, hfr]
    rfl
  have hfound : (DimStack.readLoop s (s.readFrames DimType.LOCAL)
      (some x) none).2.2 = true := by
    rw [hloop]
  rw [requestCore_found hfound, hloop]

/-- Claim C6.  A `keep=True` controller that is entered, has the
binding `x → -1` allocated in its (current) frame, and is fully
exited, resolves `x` to `-1` again on its next entry by reading the
replayed frame: the request hits the restored current frame and
returns without synthesizing a fresh slot or modifying any state. -/
theorem C6_theorem : ∀ (s2 : DimStack) (m : LocalNamedMessenger) (x : String),
    m.keep = true →
    1 < s2.stack.length →
    (∀ i ∈ s2.stack, i < s2.next_id) →
    odGet (s2.getFrame s2.currentId).name_to_dim x = some (-1) →
    ∃ s3 m3, LocalNamedMessenger.exit s2 m = .ok (s3, m3) ∧
      (LocalNamedMessenger.enter s3 m3).1.requestCore (some x) none
          DimType.LOCAL
        = .ok (some x, some (-1), (LocalNamedMessenger.enter s3 m3).1) := by
  intro s2 m x hk hlen hfresh hx
  rw [exit_keep hlen hk]
  refine ⟨_, _, rfl, ?_⟩
  apply requestCore_current_hit
  have hst : (cleanupExit { s2 with stack := s2.stack.dropLast }
      ⟨m.id, m.ref_count, m.saved_dims⟩).1.stack = s2.stack.dropLast :=
    cleanupExit_stack _ _
  have hlen3 : (cleanupExit { s2 with stack := s2.stack.dropLast }
      ⟨m.id, m.ref_count, m.saved_dims⟩).1.stack.length
      = s2.stack.length - 1 := by
    rw [hst, List.length_dropLast]
  have hne : (cleanupExit { s2 with stack := s2.stack.dropLast }
      ⟨m.id, m.ref_count, m.saved_dims⟩).1.stack ≠ [] := by
    intro h0
    rw [h0] at hlen3
    simp at hlen3
    omega
  have hnid : (cleanupExit { s2 with stack := s2.stack.dropLast }
      ⟨m.id, m.ref_count, m.saved_dims⟩).1.next_id = s2.next_id :=
    cleanupExit_next_id _ _
  have hfr : (cleanupExit { s2 with stack := s2.stack.dropLast }
        ⟨m.id, m.ref_count, m.saved_dims⟩).1.stack.headD 0
      < (cleanupExit { s2 with stack := s2.stack.dropLast }
        ⟨m.id, m.ref_count, m.saved_dims⟩).1.next_id := by
    rw [hnid, hst]
    have hne' : s2.stack.dropLast ≠ [] := by
      rw [hst] at hne
      exact hne
    exact hfresh _ (mem_of_mem_dropLast (headD_mem 0 hne'))
  obtain ⟨hes, hec, hef⟩ := enter_spec _ _ hne hfr
  rw [hec, hef]
  simp only [LocalNamedMessenger.enterFrame]
  rw [if_pos ⟨hk, by simp⟩]
  rw [getLastD_concat]
  exact hx

/-- Claim C6, witness: the `keep=True` controller owning the frame
`x → -1` of `keepState`, once exited and re-entered, resolves `x` to
`-1` with the allocator left untouched. -/
theorem C6_witness :
    keepMsgr.keep = true ∧
    1 < keepState.stack.length ∧
    (∀ i ∈ keepState.stack, i < keepState.next_id) ∧
    odGet (keepState.getFrame keepState.currentId).name_to_dim "x"
      = some (-1) ∧
    ∃ s3 m3, LocalNamedMessenger.exit keepState keepMsgr = .ok (s3, m3) ∧
      (LocalNamedMessenger.enter s3 m3).1.requestCore (some "x") none
          DimType.LOCAL
        = .ok (some "x", some (-1), (LocalNamedMessenger.enter s3 m3).1) :=
  ⟨rfl, by decide, by decide, by decide,
    C6_theorem keepState keepMsgr "x" rfl (by decide) (by decide) (by decide)⟩

/-! ## Iteration-parent closure lemmas -/

theorem iterFrontier_nil (s : DimStack) : iterFrontier s [] = [] := rfl

theorem layersConcat_nil (s : DimStack) : ∀ n, layersConcat s [] n = [] := by
  intro n
  induction n with
  | zero => rfl
  | succ n ih =>
    rw [layersConcat, iterFrontier_nil, ih]
    rfl

theorem getIterParentsAux_eq_layers (n : Nat) : ∀ (s : DimStack) (acc l : List Nat),
    getIterParentsAux s acc l n = acc ++ layersConcat s l n := by
  induction n with
  | zero => intro s acc l; simp [getIterParentsAux, layersConcat]
  | succ n ih =>
    intro s acc l
    rw [getIterParentsAux]
    by_cases hl : l = []
    · rw [if_pos hl, hl, layersConcat_nil]
      simp
    · rw [if_neg hl, ih, layersConcat, List.append_assoc]

theorem frontierN_shift (s : DimStack) (l : List Nat) : ∀ k,
    frontierN s (iterFrontier s l) k = frontierN s l (k + 1) := by
  intro k
  induction k with
  | zero => rfl
  | succ k ih =>
    rw [frontierN, ih]
    rfl

theorem mem_frontierN_succ {s : DimStack} {l : List Nat} {k : Nat} {x : Nat} :
    x ∈ frontierN s l (k + 1) ↔
      ∃ y ∈ frontierN s l k, x ∈ (s.getFrame y).iter_parents := by
  rw [frontierN]
  exact mem_catMap

theorem reachIter_iff_frontier {s : DimStack} {a x : Nat} :
    ReachIter s a x ↔ ∃ k, x ∈ frontierN s [a] k := by
  constructor
  · intro h
    induction h with
    | refl => exact ⟨0, by simp [frontierN]⟩
    | tail hr hc ih =>
      obtain ⟨k, hk⟩ := ih
      exact ⟨k + 1, mem_frontierN_succ.mpr ⟨_, hk, hc⟩⟩
  · rintro ⟨k, hk⟩
    induction k generalizing x with
    | zero =>
      simp [frontierN] at hk
      subst hk
      exact ReachIter.refl _
    | succ k ih =>
      obtain ⟨y, hy, hxy⟩ := mem_frontierN_succ.mp hk
      exact ReachIter.tail (ih hy) hxy

theorem frontierN_stable {s : DimStack} {l : List Nat} {n : Nat}
    (h : frontierN s l n = []) : ∀ k, n ≤ k → frontierN s l k = [] := by
  intro k hk
  induction k with
  | zero =>
    have : n = 0 := Nat.le_zero.mp hk
    exact this ▸ h
  | succ k ih =>
    by_cases hnk : n ≤ k
    · rw [frontierN, ih hnk]
      rfl
    · have : n = k + 1 := by omega
      exact this ▸ h

theorem mem_layersConcat (n : Nat) : ∀ (s : DimStack) (l : List Nat) (x : Nat),
    x ∈ layersConcat s l n ↔
      ∃ k, 1 ≤ k ∧ k ≤ n ∧ x ∈ frontierN s l k := by
  induction n with
  | zero =>
    intro s l x
    constructor
    · intro h
      simp [layersConcat] at h
    · rintro ⟨k, h1, h2, -⟩
      omega
  | succ n ih =>
    intro s l x
    rw [layersConcat]
    constructor
    · intro h
      rcases List.mem_append.mp h with h | h
      · exact ⟨1, le_refl _, by omega, h⟩
      · obtain ⟨k, h1, h2, h3⟩ := (ih s (iterFrontier s l) x).mp h
        rw [frontierN_shift] at h3
        exact ⟨k + 1, by omega, by omega, h3⟩
    · rintro ⟨k, h1, h2, h3⟩
      cases k with
      | zero => omega
      | succ k =>
        apply List.mem_append.mpr
        by_cases hk0 : k = 0
        · subst hk0
          exact Or.inl h3
        · refine Or.inr ((ih s (iterFrontier s l) x).mpr ⟨k, by omega, by omega, ?_⟩)
          rw [frontierN_shift]
          exact h3

/-- Claim C9.  When a controller begins driving an iteration, the
`iter_parents` it records (via `_get_iter_parents` on the allocator's
then-current frame) contain exactly the frames in the transitive
closure of iteration-parent edges starting from that current frame
(provided the frontier walk terminates within the supplied fuel, as it
does on the acyclic graphs the controllers build); and this one
recorded set is shared by the frames of all subsequent iteration
steps: every enter stamps the controller's recorded list, unchanged,
into the frame it pushes, and leaves the recorded list itself
untouched. -/
theorem C9_theorem : ∀ (s : DimStack) (m : LocalNamedMessenger)
    (fuel n : Nat),
    frontierN s [s.currentId] n = [] → n ≤ fuel →
    (∀ x, x ∈ (iterRecord s m fuel).iter_parents ↔
      ReachIter s s.currentId x) ∧
    (∀ (st : DimStack) (m' : LocalNamedMessenger),
      ((LocalNamedMessenger.enter st m').1.getFrame st.next_id).iter_parents
        = m'.iter_parents ∧
      (LocalNamedMessenger.enter st m').2.iter_parents = m'.iter_parents) := by
  intro s m fuel n hempty hnf
  constructor
  · intro x
    show x ∈ getIterParents s s.currentId fuel ↔ _
    rw [getIterParents, getIterParentsAux_eq_layers]
    constructor
    · intro h
      rcases List.mem_append.mp h with h | h
      · have : x = s.currentId := by simpa using h
        exact this ▸ ReachIter.refl _
      · obtain ⟨k, -, -, h3⟩ := (mem_layersConcat fuel s [s.currentId] x).mp h
        exact reachIter_iff_frontier.mpr ⟨k, h3⟩
    · intro hreach
      obtain ⟨k, hk⟩ := reachIter_iff_frontier.mp hreach
      apply List.mem_append.mpr
      by_cases hk0 : k = 0
      · subst hk0
        simp [frontierN] at hk
        exact Or.inl (by simp [hk])
      · have hkfuel : k ≤ fuel := by
          by_contra hgt
          push_neg at hgt
          have h0 : frontierN s [s.currentId] k = [] :=
            frontierN_stable hempty k (by omega)
          rw [h0] at hk
          simp at hk
        exact Or.inr ((mem_layersConcat fuel s [s.currentId] x).mpr
          ⟨k, by omega, hkfuel, hk⟩)
  · intro st m'
    constructor
    · show ((cleanupEnter (st.pushFrame (LocalNamedMessenger.enterFrame st m'))
          _).1.getFrame st.next_id).iter_parents = m'.iter_parents
      rw [cleanupEnter_getFrame_iter]
      show ((odGet (odSet st.store st.next_id
          (LocalNamedMessenger.enterFrame st m')) st.next_id).getD
          emptyFrame).iter_parents = m'.iter_parents
      rw [odGet_odSet_self]
      rfl
    · simp only [LocalNamedMessenger.enter]
      by_cases h : m'.keep ∧ m'.saved_frames ≠ []
      · rw [if_pos h]
      · rw [if_neg h]

/-- Claim C9, witness: on `iterState` (current frame 1 with iteration
parent 0) the recorded set is exactly the two reachable frames, and the
enter of any step stamps the recorded list into the pushed frame. -/
theorem C9_witness :
    frontierN iterState [iterState.currentId] 2 = [] ∧
    (2 : Nat) ≤ 2 ∧
    ((∀ x, x ∈ (iterRecord iterState keepMsgr 2).iter_parents ↔
        ReachIter iterState iterState.currentId x) ∧
     (∀ (st : DimStack) (m' : LocalNamedMessenger),
       ((LocalNamedMessenger.enter st m').1.getFrame st.next_id).iter_parents
         = m'.iter_parents ∧
       (LocalNamedMessenger.enter st m').2.iter_parents = m'.iter_parents)) :=
  ⟨by decide, le_refl 2,
    C9_theorem iterState keepMsgr 2 2 (by decide) (le_refl 2)⟩
